import Mathlib

/-!
Verification development for the NLP-to-SQL todo pipeline.

The embedded code is the API route of the repository: the preprocessor
(`preprocessQuery`), the intent classifier (`classifyIntent`), the syntax
repairer (`extractTaskDescription`, `fixSQLSyntax`), the validator fallback
(`validateSQLFallback`, the local-heuristics path of `validateSQLWithGemini`),
the SQL extractor (`extractCleanSQL`), the post-validation decision of the
orchestrator (`postValidationDecision`), and the four statement handlers
(`handleInsertQuery`, `handleSelectQuery`, `handleUpdateQuery`,
`handleDeleteQuery`).

Strings are modelled as `List Char`.  JavaScript string methods are modelled
by executable list functions, and the JavaScript regular expressions of the
source are modelled by a small backtracking matcher (`mrun`, `reFirst`) over
a regular-expression syntax `RE` whose quantifiers range over character
classes, which covers every pattern the source uses and reproduces the
leftmost-match, greedy/lazy backtracking semantics of JavaScript `match`,
`replace` and `test`.  The row store (Supabase) is modelled as a list of
rows together with a count of issued store operations.
-/

namespace NlpToSql

/-- Character list of a string literal. -/
def str (s : String) : List Char := s.data

/-- The single-quote character. -/
def cSQ : Char := Char.ofNat 39

/-- The double-quote character. -/
def cDQ : Char := Char.ofNat 34

/-- The backtick character. -/
def cBT : Char := Char.ofNat 96

/-- The newline character. -/
def cNL : Char := Char.ofNat 10

/-- The carriage-return character. -/
def cCR : Char := Char.ofNat 13

/-- JavaScript whitespace (the ASCII part of `\s`, which is also the set
`String.prototype.trim` strips): space, tab, LF, VT, FF, CR. -/
def jsIsWs (c : Char) : Bool :=
  c == ' ' || c == Char.ofNat 9 || c == cNL || c == Char.ofNat 11 ||
  c == Char.ofNat 12 || c == cCR

/-- JavaScript word character `\w`: `[A-Za-z0-9_]`. -/
def jsIsWord (c : Char) : Bool :=
  ('a' ≤ c && c ≤ 'z') || ('A' ≤ c && c ≤ 'Z') || ('0' ≤ c && c ≤ '9') || c == '_'

/-- JavaScript digit `\d`. -/
def jsIsDigit (c : Char) : Bool := '0' ≤ c && c ≤ '9'

/-- Left part of `String.prototype.trim`. -/
def trimL (l : List Char) : List Char := l.dropWhile jsIsWs

/-- Right part of `String.prototype.trim`. -/
def trimR (l : List Char) : List Char := (l.reverse.dropWhile jsIsWs).reverse

/-- JavaScript `String.prototype.trim`. -/
def trimJS (l : List Char) : List Char := trimR (trimL l)

/-- JavaScript `s.includes(sub)`: substring containment. -/
def jsIncludes (s sub : List Char) : Bool := decide (sub <:+: s)

/-- JavaScript `s.indexOf(sub)` restricted to the found case:
index of the first occurrence of `needle` in `hay`. -/
def firstIdx? (needle hay : List Char) : Option Nat :=
  if needle.isPrefixOf hay then some 0
  else
    match hay with
    | [] => none
    | _ :: t => (firstIdx? needle t).map (· + 1)

/-- JavaScript `s.charAt(0).toUpperCase() + s.slice(1)`. -/
def capFirst : List Char → List Char
  | [] => []
  | c :: t => c.toUpper :: t

/-- JavaScript `s.replace(/'/g, "''")`: double every single quote. -/
def escapeSQ : List Char → List Char
  | [] => []
  | c :: t => if c == cSQ then cSQ :: cSQ :: escapeSQ t else c :: escapeSQ t

/-- Worker for whitespace collapsing: `prevWs` records whether the previous
character was whitespace (its run has already emitted its single space). -/
def collapseWsAux : Bool → List Char → List Char
  | _, [] => []
  | prevWs, c :: t =>
    if jsIsWs c then
      if prevWs then collapseWsAux true t else ' ' :: collapseWsAux true t
    else c :: collapseWsAux false t

/-- JavaScript `s.replace(/\s+/g, ' ')`: collapse every maximal whitespace
run to a single space. -/
def collapseWs (l : List Char) : List Char := collapseWsAux false l

/-- JavaScript `s.replace(/;+$/, '')`: drop the maximal trailing run of
semicolons (the only match of the anchored pattern). -/
def stripTrailingSemis (l : List Char) : List Char :=
  (l.reverse.dropWhile (· == ';')).reverse

/-- JavaScript `s.replace(/,$/, '')`: drop a single trailing comma. -/
def dropTrailingComma (l : List Char) : List Char :=
  match l.reverse with
  | c :: r => if c == ',' then r.reverse else l
  | [] => l

/-- After a fence, the pattern part `\n?`: greedily drop one newline. -/
def stripAfterNL : List Char → List Char
  | c :: t => if c == cNL then t else c :: t
  | [] => []

/-- JavaScript `s.replace(/```sql\n?/gi, '')` (backticks written via their
code point): repeatedly delete the leftmost fence-with-sql marker together
with one optional following newline. -/
def stripSqlFence : List Char → List Char
  | c1 :: c2 :: c3 :: c4 :: c5 :: c6 :: rest =>
    if (c1 :: c2 :: c3 :: c4 :: c5 :: [c6]).map Char.toUpper =
        [cBT, cBT, cBT, 'S', 'Q', 'L'] then
      match rest with
      | [] => []
      | d :: rest2 => if d == cNL then stripSqlFence rest2 else stripSqlFence (d :: rest2)
    else c1 :: stripSqlFence (c2 :: c3 :: c4 :: c5 :: c6 :: rest)
  | [] => []
  | c :: t => c :: stripSqlFence t

/-- JavaScript `s.replace(/```\n?/g, '')`: repeatedly delete the leftmost
bare fence marker together with one optional following newline. -/
def stripTicks : List Char → List Char
  | c1 :: c2 :: c3 :: rest =>
    if c1 :: c2 :: [c3] = [cBT, cBT, cBT] then
      match rest with
      | [] => []
      | d :: rest2 => if d == cNL then stripTicks rest2 else stripTicks (d :: rest2)
    else c1 :: stripTicks (c2 :: c3 :: rest)
  | [] => []
  | c :: t => c :: stripTicks t

/-! ## A small regular-expression engine

Quantifiers only range over single character classes, which is all the
source patterns need.  `mrun` is a continuation-passing backtracking
matcher: alternatives are tried left to right, greedy quantifiers consume
as much as possible first, lazy ones as little as possible, exactly as in
JavaScript.  Captured groups are recorded by index in an association list,
most recent first. -/

inductive RE where
  | eps : RE
  | eos : RE
  | cls (p : Char → Bool) : RE
  | many (p : Char → Bool) (min1 : Bool) (greedy : Bool) : RE
  | seq (r1 r2 : RE) : RE
  | alt (r1 r2 : RE) : RE
  | opt (r : RE) : RE
  | grp (i : Nat) (r : RE) : RE

/-- Capture environment: group index to captured text, most recent first. -/
def Caps := List (Nat × List Char)

/-- Look up a captured group. -/
def capsFind (g : Caps) (i : Nat) : Option (List Char) :=
  (List.find? (fun e => e.1 == i) g).map (·.2)

/-- Try the continuation after dropping each candidate count of quantified
characters, in the given order. -/
def tryDrops (s : List Char) (g : Caps)
    (k : List Char → Caps → Option (List Char × Caps)) :
    List Nat → Option (List Char × Caps)
  | [] => none
  | i :: is =>
    match k (s.drop i) g with
    | some r => some r
    | none => tryDrops s g k is

/-- Candidate consumption counts for a class quantifier whose maximal run has
length `n`: greedy tries longest first, lazy shortest first. -/
def countChoices (min1 greedy : Bool) (n : Nat) : List Nat :=
  let lo := if min1 then 1 else 0
  let base := List.range' lo (n + 1 - lo)
  if greedy then base.reverse else base

/-- The backtracking matcher.  `mrun r s g k` matches `r` against a prefix of
`s` with captures `g`, calling `k` on the remaining suffix and updated
captures for every way of matching, in JavaScript preference order. -/
def mrun : RE → List Char → Caps →
    (List Char → Caps → Option (List Char × Caps)) → Option (List Char × Caps)
  | .eps, s, g, k => k s g
  | .eos, s, g, k =>
    match s with
    | [] => k s g
    | _ :: _ => none
  | .cls p, s, g, k =>
    match s with
    | [] => none
    | c :: t => if p c then k t g else none
  | .many p min1 greedy, s, g, k =>
    tryDrops s g k (countChoices min1 greedy (s.takeWhile p).length)
  | .seq r1 r2, s, g, k => mrun r1 s g (fun s1 g1 => mrun r2 s1 g1 k)
  | .alt r1 r2, s, g, k =>
    match mrun r1 s g k with
    | some r => some r
    | none => mrun r2 s g k
  | .opt r, s, g, k =>
    match mrun r s g k with
    | some res => some res
    | none => k s g
  | .grp i r, s, g, k =>
    mrun r s g (fun s1 g1 => k s1 ((i, s.take (s.length - s1.length)) :: g1))

/-- Match `r` at the start of `s`; on success return the remaining suffix and
the captures. -/
def matchAt (r : RE) (s : List Char) : Option (List Char × Caps) :=
  mrun r s [] (fun s1 g => some (s1, g))

/-- Result of a JavaScript `String.match` call: text before the match, the
matched text, text after, and the captures. -/
structure MatchRes where
  pre : List Char
  matched : List Char
  post : List Char
  caps : Caps

/-- Scan start positions left to right, accumulating the skipped text
reversed in `seen` (JavaScript leftmost-match search). -/
def reFirstAux (r : RE) : List Char → List Char → Option MatchRes
  | seen, rest =>
    match matchAt r rest with
    | some (suf, g) => some ⟨seen.reverse, rest.take (rest.length - suf.length), suf, g⟩
    | none =>
      match rest with
      | [] => none
      | c :: t => reFirstAux r (c :: seen) t

/-- JavaScript `s.match(r)` for an unanchored pattern. -/
def reFirst (r : RE) (s : List Char) : Option MatchRes := reFirstAux r [] s

/-- JavaScript `r.test(s)` for a `^`-anchored pattern. -/
def reTestAt (r : RE) (s : List Char) : Bool := (matchAt r s).isSome

/-- JavaScript non-global `s.replace(r, repl)` for an unanchored pattern;
the replacement may use the captures. -/
def jsReplaceFirst (r : RE) (repl : Caps → List Char) (s : List Char) : List Char :=
  match reFirst r s with
  | some m => m.pre ++ repl m.caps ++ m.post
  | none => s

/-- JavaScript non-global `s.replace(r, repl)` for a `^`-anchored pattern. -/
def jsReplaceAnchored (r : RE) (repl : Caps → List Char) (s : List Char) : List Char :=
  match matchAt r s with
  | some (suf, g) => repl g ++ suf
  | none => s

/-- A literal character (case-sensitive). -/
def reChar (c : Char) : RE := .cls (fun a => a == c)

/-- A literal character under the `i` flag (ASCII case folding by
`Char.toUpper`, as JavaScript does for ASCII). -/
def reCharCI (c : Char) : RE := .cls (fun a => a.toUpper == c.toUpper)

/-- A literal string (case-sensitive). -/
def reStrCS : List Char → RE
  | [] => .eps
  | c :: t => .seq (reChar c) (reStrCS t)

/-- A literal string under the `i` flag. -/
def reStrCI : List Char → RE
  | [] => .eps
  | c :: t => .seq (reCharCI c) (reStrCI t)

/-- Sequence a list of pieces. -/
def reSeqs : List RE → RE
  | [] => .eps
  | [r] => r
  | r :: t => .seq r (reSeqs t)

/-- Alternation over a list, tried left to right. -/
def reAlts : List RE → RE
  | [] => .eps
  | [r] => r
  | r :: t => .alt r (reAlts t)

/-- `\s*`. -/
def ws0 : RE := .many jsIsWs false true

/-- `\s+`. -/
def ws1 : RE := .many jsIsWs true true

/-- The JavaScript dot: any character but a line terminator. -/
def dotP (c : Char) : Bool := !(c == cNL || c == cCR)

/-- `(.+)` greedy. -/
def dotPlusGreedy : RE := .many dotP true true

/-- `(.+?)` lazy. -/
def dotPlusLazy : RE := .many dotP true false

/-- `.*?` lazy. -/
def dotStarLazy : RE := .many dotP false false

/-- `[\s\S]*?` lazy: any character at all. -/
def anyStarLazy : RE := .many (fun _ => true) false false

/-- Negated character class over an explicit list. -/
def clsNot (cs : List Char) (a : Char) : Bool := !(cs.contains a)

/-! ## The patterns of the source, one definition per regex literal -/

/-- The leading command phrase stripped by `extractTaskDescription`:
`^(create|add|new|make|insert)\s+(a\s+)?(task|todo|item)\s+(for\s+me\s+)?(to\s+)?`
with the `i` flag, anchored. -/
def takePhraseRE : RE := reSeqs [
  .grp 1 (reAlts [reStrCI (str "create"), reStrCI (str "add"), reStrCI (str "new"),
    reStrCI (str "make"), reStrCI (str "insert")]),
  ws1,
  .opt (.grp 2 (.seq (reStrCI (str "a")) ws1)),
  .grp 3 (reAlts [reStrCI (str "task"), reStrCI (str "todo"), reStrCI (str "item")]),
  ws1,
  .opt (.grp 4 (reSeqs [reStrCI (str "for"), ws1, reStrCI (str "me"), ws1])),
  .opt (.grp 5 (.seq (reStrCI (str "to")) ws1))]

/-- First VALUES pattern of `fixSQLSyntax`:
`VALUES\s*\(\s*([^'"][^,)]*[^'"\s][^,)]*),\s*(true|false|null|\d+)\s*\)` with `i`. -/
def valuesPat1 : RE := reSeqs [
  reStrCI (str "VALUES"), ws0, reChar '(', ws0,
  .grp 1 (reSeqs [.cls (clsNot [cSQ, cDQ]), .many (clsNot [',', ')']) false true,
    .cls (fun c => !(c == cSQ || c == cDQ || jsIsWs c)),
    .many (clsNot [',', ')']) false true]),
  reChar ',', ws0,
  .grp 2 (reAlts [reStrCI (str "true"), reStrCI (str "false"), reStrCI (str "null"),
    .many jsIsDigit true true]),
  ws0, reChar ')']

/-- Second VALUES pattern of `fixSQLSyntax`:
`VALUES\s*\(\s*([^'"][^,)]+),\s*(true|false|null|\d+)\s*\)` with `i`. -/
def valuesPat2 : RE := reSeqs [
  reStrCI (str "VALUES"), ws0, reChar '(', ws0,
  .grp 1 (.seq (.cls (clsNot [cSQ, cDQ])) (.many (clsNot [',', ')']) true true)),
  reChar ',', ws0,
  .grp 2 (reAlts [reStrCI (str "true"), reStrCI (str "false"), reStrCI (str "null"),
    .many jsIsDigit true true]),
  ws0, reChar ')']

/-- SET pattern of `fixSQLSyntax`: `SET\s+(\w+)\s*=\s*([^'"][^,\s;]+)` with `i`. -/
def setPat : RE := reSeqs [
  reStrCI (str "SET"), ws1, .grp 1 (.many jsIsWord true true), ws0, reChar '=', ws0,
  .grp 2 (.seq (.cls (clsNot [cSQ, cDQ]))
    (.many (fun c => !(c == ',' || jsIsWs c || c == ';')) true true))]

/-- The unquoted-VALUES detector of the validator fallback:
`VALUES\s*\([^'"][^,)]+,\s*(true|false|\d+)\)` with `i`. -/
def unquotedValuesRE : RE := reSeqs [
  reStrCI (str "VALUES"), ws0, reChar '(',
  .cls (clsNot [cSQ, cDQ]), .many (clsNot [',', ')']) true true,
  reChar ',', ws0,
  .grp 1 (reAlts [reStrCI (str "true"), reStrCI (str "false"), .many jsIsDigit true true]),
  reChar ')']

/-- Alternation of the four statement keywords, tried in source order. -/
def kwAlt : RE := reAlts [reStrCI (str "SELECT"), reStrCI (str "INSERT"),
  reStrCI (str "UPDATE"), reStrCI (str "DELETE")]

/-- First extractor pattern: `(SELECT|INSERT|UPDATE|DELETE)[\s\S]*?;?$` with `i`. -/
def sqlTextPat1 : RE := reSeqs [.grp 1 kwAlt, anyStarLazy, .opt (reChar ';'), .eos]

/-- Second extractor pattern:
`(?:query|sql)["']?\s*:?\s*["']?(SELECT|INSERT|UPDATE|DELETE)[\s\S]*?["']?;?` with `i`. -/
def sqlTextPat2 : RE := reSeqs [
  .alt (reStrCI (str "query")) (reStrCI (str "sql")),
  .opt (.cls (fun c => c == cDQ || c == cSQ)), ws0, .opt (reChar ':'), ws0,
  .opt (.cls (fun c => c == cDQ || c == cSQ)),
  .grp 1 kwAlt, anyStarLazy,
  .opt (.cls (fun c => c == cDQ || c == cSQ)), .opt (reChar ';')]

/-- Third extractor pattern:
`(?:here\s+is|query\s+is|sql\s+is)[\s\S]*?(SELECT|INSERT|UPDATE|DELETE)[\s\S]*?;?$`
with `i`. -/
def sqlTextPat3 : RE := reSeqs [
  reAlts [reSeqs [reStrCI (str "here"), ws1, reStrCI (str "is")],
    reSeqs [reStrCI (str "query"), ws1, reStrCI (str "is")],
    reSeqs [reStrCI (str "sql"), ws1, reStrCI (str "is")]],
  anyStarLazy, .grp 1 kwAlt, anyStarLazy, .opt (reChar ';'), .eos]

/-- Extractor cleanup: `^.*?(SELECT|INSERT|UPDATE|DELETE)` with `i`, anchored. -/
def cleanupRE : RE := .seq dotStarLazy (.grp 1 kwAlt)

/-- Extractor guard: `^(SELECT|INSERT|UPDATE|DELETE)` with `i`, anchored. -/
def startKwRE : RE := .grp 1 kwAlt

/-- `INSERT INTO todos\s*\([^)]+\)\s*VALUES\s*\(\s*'([^']+)'\s*,\s*(true|false)\s*\)`
with `i`: the INSERT handler parse pattern. -/
def insertParseRE : RE := reSeqs [
  reStrCI (str "INSERT INTO todos"), ws0, reChar '(',
  .many (clsNot [')']) true true, reChar ')', ws0,
  reStrCI (str "VALUES"), ws0, reChar '(', ws0,
  reChar cSQ, .grp 1 (.many (clsNot [cSQ]) true true), reChar cSQ, ws0,
  reChar ',', ws0,
  .grp 2 (.alt (reStrCI (str "true")) (reStrCI (str "false"))),
  ws0, reChar ')']

/-- `WHERE\s+(.+?)(?:\s+ORDER\s+BY|$)` with `i`: the SELECT handler WHERE parse. -/
def selectWhereRE : RE := reSeqs [
  reStrCI (str "WHERE"), ws1, .grp 1 dotPlusLazy,
  .alt (reSeqs [ws1, reStrCI (str "ORDER"), ws1, reStrCI (str "BY")]) .eos]

/-- `title\s+LIKE\s+'%([^%']+)%'` with `i`. -/
def likeRE : RE := reSeqs [
  reStrCI (str "title"), ws1, reStrCI (str "LIKE"), ws1,
  reChar cSQ, reChar '%',
  .grp 1 (.many (fun c => !(c == '%' || c == cSQ)) true true),
  reChar '%', reChar cSQ]

/-- `title\s*=\s*'([^']+)'` with `i`. -/
def titleEqRE : RE := reSeqs [
  reStrCI (str "title"), ws0, reChar '=', ws0,
  reChar cSQ, .grp 1 (.many (clsNot [cSQ]) true true), reChar cSQ]

/-- `completed\s*=\s*(true|false)` with `i`. -/
def completedRE : RE := reSeqs [
  reStrCI (str "completed"), ws0, reChar '=', ws0,
  .grp 1 (.alt (reStrCI (str "true")) (reStrCI (str "false")))]

/-- `id\s*=\s*'?([^'\s]+)'?` (no `i` flag). -/
def idRE : RE := reSeqs [
  reStrCS (str "id"), ws0, reChar '=', ws0, .opt (reChar cSQ),
  .grp 1 (.many (fun c => !(c == cSQ || jsIsWs c)) true true),
  .opt (reChar cSQ)]

/-- The optional WHERE tail `(?:\s+WHERE\s+(.+))?` shared by the UPDATE and
DELETE parse patterns; the capture index is the group number in the source
pattern.  The `.opt` is applied at the use site. -/
def whereTail (i : Nat) : RE := reSeqs [ws1, reStrCI (str "WHERE"), ws1, .grp i dotPlusGreedy]

/-- Head of the quoted UPDATE parse pattern, before the optional WHERE tail. -/
def updatePreQ : RE :=
  reSeqs [reStrCI (str "UPDATE todos SET"), ws1, .grp 1 (.many jsIsWord true true),
    ws0, reChar '=', ws0, reChar cSQ, .grp 2 (.many (clsNot [cSQ]) true true), reChar cSQ]

/-- `UPDATE todos SET\s+(\w+)\s*=\s*'([^']+)'(?:\s+WHERE\s+(.+))?` with `i`. -/
def updatePatQ : RE := .seq updatePreQ (.opt (whereTail 3))

/-- Head of the unquoted UPDATE parse pattern, before the optional WHERE tail. -/
def updatePreNQ : RE :=
  reSeqs [reStrCI (str "UPDATE todos SET"), ws1, .grp 1 (.many jsIsWord true true),
    ws0, reChar '=', ws0, .grp 2 (.many (fun c => !(c == ',' || jsIsWs c)) true true)]

/-- `UPDATE todos SET\s+(\w+)\s*=\s*([^,\s]+)(?:\s+WHERE\s+(.+))?` with `i`. -/
def updatePatNQ : RE := .seq updatePreNQ (.opt (whereTail 3))

/-- `DELETE FROM todos(?:\s+WHERE\s+(.+))?` with `i`. -/
def deletePat : RE := .seq (reStrCI (str "DELETE FROM todos")) (.opt (whereTail 1))

/-! ## The embedded source functions -/

/-- The preprocessor:
`query.toLowerCase().trim().replace(/\s+/g, ' ').replace(/[^\w\s]/g, ' ').trim()`. -/
def preprocessQuery (query : List Char) : List Char :=
  trimJS ((collapseWs (trimJS (query.map Char.toLower))).map
    (fun c => if !jsIsWord c && !jsIsWs c then ' ' else c))

/-- The classifier keyword set `addKeywords`. -/
def addKeywords : List (List Char) :=
  [str "add", str "create", str "new", str "insert", str "make"]

/-- The classifier keyword set `deleteKeywords`. -/
def deleteKeywords : List (List Char) := [str "delete", str "remove", str "drop"]

/-- The classifier keyword set `updateKeywords`. -/
def updateKeywords : List (List Char) :=
  [str "update", str "edit", str "change", str "modify", str "mark",
   str "complete", str "finish", str "done", str "set"]

/-- The classifier keyword set `listKeywords`. -/
def listKeywords : List (List Char) :=
  [str "list", str "show", str "get", str "find", str "select", str "display"]

/-- The intent classifier, with the exact branch order of the source. -/
def classifyIntent (query : List Char) : List Char :=
  if jsIncludes query (str "show") || jsIncludes query (str "list") ||
     jsIncludes query (str "display") || jsIncludes query (str "get") then str "READ"
  else if jsIncludes query (str "mark") &&
      (jsIncludes query (str "done") || jsIncludes query (str "complete")) then str "UPDATE"
  else if jsIncludes query (str "finish") ||
      (jsIncludes query (str "set") && jsIncludes query (str "done")) then str "UPDATE"
  else if addKeywords.any (fun kw => jsIncludes query kw) then str "CREATE"
  else if deleteKeywords.any (fun kw => jsIncludes query kw) then str "DELETE"
  else if updateKeywords.any (fun kw => jsIncludes query kw) then str "UPDATE"
  else if listKeywords.any (fun kw => jsIncludes query kw) then str "READ"
  else str "READ"

/-- `extractTaskDescription`: strip the leading command phrase, drop a
trailing comma, trim; then keep action-verb phrases as they are, otherwise
take the part after the first " to " if any; capitalize the first letter. -/
def extractTaskDescription (query : List Char) : List Char :=
  let cleaned := trimJS (dropTrailingComma
    (jsReplaceAnchored takePhraseRE (fun _ => []) (query.map Char.toLower)))
  if (str "order ").isPrefixOf cleaned || (str "buy ").isPrefixOf cleaned ||
     (str "call ").isPrefixOf cleaned then
    capFirst cleaned
  else if jsIncludes cleaned (str " to ") then
    match firstIdx? (str " to ") cleaned with
    | some toIndex => capFirst (cleaned.drop (toIndex + 4))
    | none => capFirst cleaned
  else capFirst cleaned

/-- `fixSQLSyntax`: requote the first unquoted VALUES literal of an INSERT
(re-deriving the literal from the original user text), and the unquoted
SET-title literal of an UPDATE.  Both replacements act on the incoming
`sql`, exactly as the source does. -/
def fixSQLSyntax (sql originalQuery : List Char) : List Char :=
  let fixed1 :=
    if jsIncludes (sql.map Char.toUpper) (str "INSERT INTO TODOS") then
      match reFirst valuesPat1 sql with
      | some m =>
        let escaped := escapeSQ (extractTaskDescription originalQuery)
        m.pre ++ (str "VALUES (" ++ [cSQ] ++ escaped ++ [cSQ] ++ str ", " ++
          (capsFind m.caps 2).getD [] ++ str ")") ++ m.post
      | none =>
        match reFirst valuesPat2 sql with
        | some m =>
          let escaped := escapeSQ (extractTaskDescription originalQuery)
          m.pre ++ (str "VALUES (" ++ [cSQ] ++ escaped ++ [cSQ] ++ str ", " ++
            (capsFind m.caps 2).getD [] ++ str ")") ++ m.post
        | none => sql
    else sql
  if jsIncludes (sql.map Char.toUpper) (str "UPDATE TODOS SET") then
    match reFirst setPat sql with
    | some m =>
      if ((capsFind m.caps 1).getD []).map Char.toLower = str "title" then
        let escaped := escapeSQ (extractTaskDescription originalQuery)
        m.pre ++ (str "SET " ++ (capsFind m.caps 1).getD [] ++ str " = " ++
          [cSQ] ++ escaped ++ [cSQ]) ++ m.post
      else fixed1
    | none => fixed1
  else fixed1

/-- The validation verdict record. -/
structure Verdict where
  valid : Bool
  reason : Option (List Char)
  suggestion : Option (List Char)
deriving DecidableEq

/-- The dangerous-keyword list of the validator fallback. -/
def dangerousKeywords : List (List Char) :=
  [str "drop", str "alter", str "truncate", str "delete from todos",
   str "update todos set"]

/-- The local-heuristics fallback of `validateSQLWithGemini` (taken when the
provider call fails or its reply has no JSON block): flag unquoted VALUES
literals with a repaired suggestion, otherwise valid iff not dangerous and
non-empty after trimming. -/
def validateSQLFallback (originalQuery sqlQuery : List Char) : Verdict :=
  let isDangerous := dangerousKeywords.any
    (fun kw => jsIncludes (sqlQuery.map Char.toLower) (kw.map Char.toLower))
  let hasUnquotedStrings := (reFirst unquotedValuesRE sqlQuery).isSome
  if hasUnquotedStrings then
    { valid := false,
      reason := some (str "String literals must be properly quoted with single quotes"),
      suggestion := some (fixSQLSyntax sqlQuery originalQuery) }
  else
    { valid := !isDangerous && !(trimJS sqlQuery).isEmpty,
      reason := if isDangerous then
          some (str "Query contains potentially dangerous operations")
        else none,
      suggestion := none }

/-- The in-loop cleanup of `extractCleanSQL`:
`.replace(/^.*?(SELECT|INSERT|UPDATE|DELETE)/i, '$1').replace(/;+$/, '').trim()`. -/
def cleanupLoopSQL (matched : List Char) : List Char :=
  trimJS (stripTrailingSemis
    (jsReplaceAnchored cleanupRE (fun g => (capsFind g 1).getD []) matched))

/-- The pattern loop of `extractCleanSQL`: first pattern whose cleaned match
is non-empty and starts with a statement keyword wins. -/
def tryPatterns : List RE → List Char → Option (List Char)
  | [], _ => none
  | p :: ps, cleaned =>
    match reFirst p cleaned with
    | some m =>
      let sql := cleanupLoopSQL m.matched
      if !sql.isEmpty && reTestAt startKwRE sql then some sql
      else tryPatterns ps cleaned
    | none => tryPatterns ps cleaned

/-- The keyword list of the extractor fallback scan, in source order. -/
def sqlKeywordsU : List (List Char) :=
  [str "SELECT", str "INSERT", str "UPDATE", str "DELETE"]

/-- The extractor fallback scan: find the first statement keyword in the
uppercased text and return the text from there, semicolon-stripped and
trimmed, when that is non-empty. -/
def kwScan : List (List Char) → List Char → Option (List Char)
  | [], _ => none
  | kw :: ks, cleaned =>
    match firstIdx? kw (cleaned.map Char.toUpper) with
    | some i =>
      let extracted := trimJS (stripTrailingSemis (cleaned.drop i))
      if !extracted.isEmpty then some extracted else kwScan ks cleaned
    | none => kwScan ks cleaned

/-- `extractCleanSQL`: strip markdown fences and trim, run the three
statement patterns, fall back to the keyword scan, and as a last resort
return the cleaned text minus trailing semicolons. -/
def extractCleanSQL (rawText : List Char) : List Char :=
  let cleaned := trimJS (stripTicks (stripSqlFence rawText))
  match tryPatterns [sqlTextPat1, sqlTextPat2, sqlTextPat3] cleaned with
  | some sql => sql
  | none =>
    match kwScan sqlKeywordsU cleaned with
    | some extracted => extracted
    | none => trimJS (stripTrailingSemis cleaned)

/-- The post-validation decision of the orchestrator (`POST`, the statement
selection and the 400 abort between validation and execution).  JavaScript
truthiness of the optional suggestion string is modelled explicitly: an
absent and an empty suggestion are both falsy.  The error value carries
(reason, sql, suggestion) as surfaced in the 400 response body; `Except.ok`
carries the statement passed on to `executeSQLQuery`. -/
def postValidationDecision (validation : Verdict) (sqlQuery query : List Char) :
    Except (List Char × List Char × List Char) (List Char) :=
  let sugTruthy : Bool :=
    match validation.suggestion with
    | none => false
    | some s => !s.isEmpty
  let final0 := if sugTruthy then (validation.suggestion.getD []) else sqlQuery
  let finalSQL := if !validation.valid && !sugTruthy then fixSQLSyntax sqlQuery query
    else final0
  if !validation.valid && !sugTruthy && finalSQL = sqlQuery then
    .error (validation.reason.getD [], sqlQuery, finalSQL)
  else .ok finalSQL

/-! ## The row store and the statement handlers

The store is a list of task records plus a count of issued store
operations.  Store reads are ordered by `created_at` (the handlers always
request descending order, `getAllTodos` and the filtered SELECT included);
`ilike` with a `%term%` pattern is case-insensitive substring matching.
Store calls never fail in this model: no claim concerns store errors. -/

/-- A task record. -/
structure Todo where
  id : List Char
  title : List Char
  completed : Bool
  created_at : Nat
deriving DecidableEq

/-- The descending `created_at` order used for every read. -/
def createdDesc (a b : Todo) : Prop := b.created_at ≤ a.created_at

instance : DecidableRel createdDesc :=
  fun a b => inferInstanceAs (Decidable (b.created_at ≤ a.created_at))

instance : IsTotal Todo createdDesc :=
  ⟨fun a b => (Nat.le_total b.created_at a.created_at).elim Or.inl Or.inr⟩

instance : IsTrans Todo createdDesc :=
  ⟨fun _ _ _ hab hbc => Nat.le_trans hbc hab⟩

/-- Store read ordered by `created_at` descending. -/
def sortDesc (rows : List Todo) : List Todo := List.insertionSort createdDesc rows

/-- The single oldest record (`order created_at ascending, limit 1, single`). -/
def oldestTodo (rows : List Todo) : Option Todo :=
  (List.insertionSort (fun a b : Todo => a.created_at ≤ b.created_at) rows).head?

/-- Supabase `ilike` with a `%needle%` pattern: case-insensitive containment. -/
def containsCI (needle hay : List Char) : Bool :=
  jsIncludes (hay.map Char.toLower) (needle.map Char.toLower)

/-- A row filter attached to a store operation by `.eq` / `.ilike`; `none`
at the use sites below means the operation runs unfiltered. -/
inductive RowFilter where
  | byId (v : List Char)
  | byTitle (v : List Char)
  | byLike (term : List Char)
  | byCompleted (b : Bool)
deriving DecidableEq

/-- Whether a row matches an optional filter; no filter matches every row. -/
def rowMatches : Option RowFilter → Todo → Bool
  | none, _ => true
  | some (.byId v), t => t.id == v
  | some (.byTitle v), t => t.title == v
  | some (.byLike term), t => containsCI term t.title
  | some (.byCompleted b), t => t.completed == b

/-- Outcome of a handler: number of store operations issued, the store
contents afterwards, and the returned data or the thrown error message. -/
structure ExecOut where
  calls : Nat
  db : List Todo
  res : Except (List Char) (List Todo)

/-- A parsed INSERT: title and completed flag, or `none` when the parse
pattern does not match (the handler then throws). -/
def parseInsert (sql : List Char) : Option (List Char × Bool) :=
  match reFirst insertParseRE sql with
  | some m =>
    some ((capsFind m.caps 1).getD [],
      ((capsFind m.caps 2).getD []).map Char.toLower == str "true")
  | none => none

/-- The INSERT handler.  The store assigns `newId` and `now` to the created
record; on success the handler issues the insert and then the
`getAllTodos` re-read. -/
def handleInsertQuery (sql : List Char) (newId : List Char) (now : Nat)
    (db : List Todo) : ExecOut :=
  match parseInsert sql with
  | none => ⟨0, db, .error (str "Could not parse INSERT statement")⟩
  | some (title, completed) =>
    let db2 := db ++ [⟨newId, title, completed, now⟩]
    ⟨2, db2, .ok (sortDesc db2)⟩

/-- The SELECT handler: parse an optional WHERE clause, recognize the three
filter shapes in source order, run the (possibly unfiltered) read ordered
descending; without a WHERE clause fall back to `getAllTodos`. -/
def handleSelectQuery (sql : List Char) (db : List Todo) : ExecOut :=
  match reFirst selectWhereRE sql with
  | some m =>
    let whereClause := trimJS ((capsFind m.caps 1).getD [])
    let filt : Option RowFilter :=
      match reFirst likeRE whereClause with
      | some m2 => some (.byLike ((capsFind m2.caps 1).getD []))
      | none =>
        match reFirst titleEqRE whereClause with
        | some m2 => some (.byTitle ((capsFind m2.caps 1).getD []))
        | none =>
          match reFirst completedRE whereClause with
          | some m2 =>
            some (.byCompleted
              (((capsFind m2.caps 1).getD []).map Char.toLower == str "true"))
          | none => none
    ⟨1, db, .ok (sortDesc (db.filter (rowMatches filt)))⟩
  | none => ⟨1, db, .ok (sortDesc db)⟩

/-- The coerced SET value of an UPDATE: `true`/`false` become booleans,
anything else stays text. -/
inductive SqlValue where
  | vb (b : Bool)
  | vs (s : List Char)
deriving DecidableEq

/-- Store semantics of `update ({ [column]: value })` on one row: the two
real columns are updatable with a value of the right shape; any other
column/value combination leaves the row unchanged (no claim depends on the
store's behaviour there). -/
def applyUpdate (column : List Char) (v : SqlValue) (t : Todo) : Todo :=
  if column = str "title" then
    match v with
    | .vs s => { t with title := s }
    | .vb _ => t
  else if column = str "completed" then
    match v with
    | .vb b => { t with completed := b }
    | .vs _ => t
  else t

/-- Issue the UPDATE store call with an optional filter, then the
`getAllTodos` re-read; `extraCalls` counts a preceding subquery read. -/
def execUpdate (extraCalls : Nat) (column : List Char) (v : SqlValue)
    (filt : Option RowFilter) (db : List Todo) : ExecOut :=
  let db2 := db.map (fun t => if rowMatches filt t then applyUpdate column v t else t)
  ⟨extraCalls + 2, db2, .ok (sortDesc db2)⟩

/-- The UPDATE handler: try the quoted then the unquoted parse pattern,
reject a missing WHERE clause, then recognize the WHERE shapes in source
order (`id =` by substring test with a possibly failing id extraction,
`title =`, `title LIKE`, the ORDER BY/LIMIT subquery resolved through a
separate oldest-record read) — an extraction failure inside a recognized
branch leaves the operation unfiltered, exactly as in the source. -/
def handleUpdateQuery (sql : List Char) (db : List Todo) : ExecOut :=
  let m? :=
    match reFirst updatePatQ sql with
    | some m => some m
    | none => reFirst updatePatNQ sql
  match m? with
  | none => ⟨0, db, .error (str "Could not parse UPDATE statement")⟩
  | some m =>
    let column := (capsFind m.caps 1).getD []
    let rawValue := (capsFind m.caps 2).getD []
    let value : SqlValue :=
      if rawValue = str "true" then .vb true
      else if rawValue = str "false" then .vb false
      else .vs rawValue
    match capsFind m.caps 3 with
    | none => ⟨0, db, .error (str "UPDATE without WHERE clause is not allowed for safety")⟩
    | some whereClause =>
      if jsIncludes whereClause (str "id =") then
        match reFirst idRE whereClause with
        | some m2 => execUpdate 0 column value (some (.byId ((capsFind m2.caps 1).getD []))) db
        | none => execUpdate 0 column value none db
      else if jsIncludes whereClause (str "title =") then
        match reFirst titleEqRE whereClause with
        | some m2 => execUpdate 0 column value (some (.byTitle ((capsFind m2.caps 1).getD []))) db
        | none => execUpdate 0 column value none db
      else if jsIncludes whereClause (str "title LIKE") then
        match reFirst likeRE whereClause with
        | some m2 => execUpdate 0 column value (some (.byLike ((capsFind m2.caps 1).getD []))) db
        | none => execUpdate 0 column value none db
      else if jsIncludes whereClause (str "ORDER BY") && jsIncludes whereClause (str "LIMIT") then
        match oldestTodo db with
        | some t => execUpdate 1 column value (some (.byId t.id)) db
        | none => execUpdate 1 column value none db
      else ⟨0, db, .error (str "Unsupported WHERE clause in UPDATE: " ++ whereClause)⟩

/-- Issue the DELETE store call with an optional filter, then the
`getAllTodos` re-read. -/
def execDelete (filt : Option RowFilter) (db : List Todo) : ExecOut :=
  let db2 := db.filter (fun t => !rowMatches filt t)
  ⟨2, db2, .ok (sortDesc db2)⟩

/-- The DELETE handler: parse, reject a missing WHERE clause, then
recognize the WHERE shapes in source order; as in the UPDATE handler a
failing id/title extraction inside a recognized branch leaves the delete
unfiltered. -/
def handleDeleteQuery (sql : List Char) (db : List Todo) : ExecOut :=
  match reFirst deletePat sql with
  | none => ⟨0, db, .error (str "Could not parse DELETE statement")⟩
  | some m =>
    match capsFind m.caps 1 with
    | none => ⟨0, db, .error (str "DELETE without WHERE clause is not allowed for safety")⟩
    | some whereClause =>
      if jsIncludes whereClause (str "id =") then
        match reFirst idRE whereClause with
        | some m2 => execDelete (some (.byId ((capsFind m2.caps 1).getD []))) db
        | none => execDelete none db
      else if jsIncludes whereClause (str "title =") then
        match reFirst titleEqRE whereClause with
        | some m2 => execDelete (some (.byTitle ((capsFind m2.caps 1).getD []))) db
        | none => execDelete none db
      else if jsIncludes whereClause (str "title LIKE") then
        match reFirst likeRE whereClause with
        | some m2 => execDelete (some (.byLike ((capsFind m2.caps 1).getD []))) db
        | none => execDelete none db
      else ⟨0, db, .error (str "Unsupported WHERE clause in DELETE statement")⟩

/-- `r` contains no capture group with index `i`. -/
def noGrp (i : Nat) : RE → Bool
  | .eps => true
  | .eos => true
  | .cls _ => true
  | .many _ _ _ => true
  | .seq r1 r2 => noGrp i r1 && noGrp i r2
  | .alt r1 r2 => noGrp i r1 && noGrp i r2
  | .opt r => noGrp i r
  | .grp j r => !(j == i) && noGrp i r

/-- Case-insensitive (ASCII folded) substring containment, the property a
JavaScript case-insensitive regex literal needs of its subject. -/
def hasSubCI (s sub : List Char) : Prop :=
  sub.map Char.toUpper <:+: s.map Char.toUpper

instance (s sub : List Char) : Decidable (hasSubCI s sub) :=
  inferInstanceAs (Decidable (_ <:+: _))

/-! ## Engine metatheory -/

theorem capsFind_cons_ne (j i : Nat) (v : List Char) (g : Caps)
    (h : (j == i) = false) : capsFind ((j, v) :: g) i = capsFind g i := by
  simp only [capsFind, List.find?, h]

theorem tryDrops_some {s : List Char} {g : Caps}
    {k : List Char → Caps → Option (List Char × Caps)} {il : List Nat}
    {res : List Char × Caps} (h : tryDrops s g k il = some res) :
    ∃ i, k (s.drop i) g = some res := by
  induction il with
  | nil => simp [tryDrops] at h
  | cons i is ih =>
    simp only [tryDrops] at h
    cases hk : k (s.drop i) g with
    | some r =>
      rw [hk] at h
      exact ⟨i, by rw [hk]; exact h⟩
    | none =>
      rw [hk] at h
      exact ih h

theorem mrun_inv (i : Nat) (r : RE) :
    ∀ (s : List Char) (g : Caps)
      (k : List Char → Caps → Option (List Char × Caps)) (res : List Char × Caps),
      mrun r s g k = some res →
      ∃ s' g', s' <:+ s ∧ k s' g' = some res ∧
        (noGrp i r = true → capsFind g' i = capsFind g i) := by
  induction r with
  | eps =>
    intro s g k res h
    exact ⟨s, g, List.suffix_refl s, h, fun _ => rfl⟩
  | eos =>
    intro s g k res h
    cases s with
    | nil => exact ⟨[], g, List.suffix_refl _, h, fun _ => rfl⟩
    | cons c t => simp [mrun] at h
  | cls p =>
    intro s g k res h
    cases s with
    | nil => simp [mrun] at h
    | cons c t =>
      simp only [mrun] at h
      by_cases hp : p c
      · rw [if_pos hp] at h
        exact ⟨t, g, List.suffix_cons c t, h, fun _ => rfl⟩
      · rw [if_neg hp] at h
        exact absurd h (by simp)
  | many p min1 greedy =>
    intro s g k res h
    simp only [mrun] at h
    obtain ⟨j, hk⟩ := tryDrops_some h
    exact ⟨s.drop j, g, List.drop_suffix j s, hk, fun _ => rfl⟩
  | seq r1 r2 ih1 ih2 =>
    intro s g k res h
    simp only [mrun] at h
    obtain ⟨s1, g1, hs1, hk1, hc1⟩ := ih1 s g _ res h
    obtain ⟨s2, g2, hs2, hk2, hc2⟩ := ih2 s1 g1 k res hk1
    refine ⟨s2, g2, hs2.trans hs1, hk2, fun hng => ?_⟩
    simp only [noGrp, Bool.and_eq_true] at hng
    exact (hc2 hng.2).trans (hc1 hng.1)
  | alt r1 r2 ih1 ih2 =>
    intro s g k res h
    simp only [mrun] at h
    cases h1 : mrun r1 s g k with
    | some r =>
      rw [h1] at h
      obtain ⟨s1, g1, hs1, hk1, hc1⟩ := ih1 s g k r h1
      cases h
      refine ⟨s1, g1, hs1, hk1, fun hng => ?_⟩
      simp only [noGrp, Bool.and_eq_true] at hng
      exact hc1 hng.1
    | none =>
      rw [h1] at h
      obtain ⟨s1, g1, hs1, hk1, hc1⟩ := ih2 s g k res h
      refine ⟨s1, g1, hs1, hk1, fun hng => ?_⟩
      simp only [noGrp, Bool.and_eq_true] at hng
      exact hc1 hng.2
  | opt r ihr =>
    intro s g k res h
    simp only [mrun] at h
    cases h1 : mrun r s g k with
    | some r2 =>
      rw [h1] at h
      cases h
      obtain ⟨s1, g1, hs1, hk1, hc1⟩ := ihr s g k res h1
      exact ⟨s1, g1, hs1, hk1, fun hng => hc1 (by simpa [noGrp] using hng)⟩
    | none =>
      rw [h1] at h
      exact ⟨s, g, List.suffix_refl s, h, fun _ => rfl⟩
  | grp j r ihr =>
    intro s g k res h
    simp only [mrun] at h
    obtain ⟨s1, g1, hs1, hk1, hc1⟩ := ihr s g _ res h
    refine ⟨s1, (j, s.take (s.length - s1.length)) :: g1, hs1, hk1, fun hng => ?_⟩
    simp only [noGrp, Bool.and_eq_true] at hng
    rw [capsFind_cons_ne j i _ g1 (by simpa using hng.1)]
    exact hc1 hng.2

theorem mrun_reStrCI (w : List Char) :
    ∀ (s : List Char) (g : Caps)
      (k : List Char → Caps → Option (List Char × Caps)) (res : List Char × Caps),
      mrun (reStrCI w) s g k = some res →
      w.map Char.toUpper <+: s.map Char.toUpper := by
  induction w with
  | nil =>
    intro s g k res _
    simp
  | cons c cs ih =>
    intro s g k res h
    simp only [reStrCI, mrun, reCharCI] at h
    cases s with
    | nil => simp at h
    | cons a t =>
      simp only at h
      by_cases hp : (a.toUpper == c.toUpper) = true
      · rw [if_pos hp] at h
        have htail := ih t g k res h
        simp only [List.map_cons, List.cons_prefix_cons]
        exact ⟨(eq_of_beq hp).symm, htail⟩
      · rw [if_neg (by simpa using hp)] at h
        exact absurd h (by simp)

theorem reFirstAux_some (r : RE) :
    ∀ (rest seen : List Char) (m : MatchRes), reFirstAux r seen rest = some m →
      ∃ n suf g, matchAt r (rest.drop n) = some (suf, g) ∧ m.caps = g := by
  intro rest
  induction rest with
  | nil =>
    intro seen m h
    simp only [reFirstAux] at h
    cases hm : matchAt r [] with
    | some p =>
      rw [hm] at h
      cases h
      exact ⟨0, p.1, p.2, hm, rfl⟩
    | none => rw [hm] at h; simp at h
  | cons c t ih =>
    intro seen m h
    simp only [reFirstAux] at h
    cases hm : matchAt r (c :: t) with
    | some p =>
      rw [hm] at h
      cases h
      exact ⟨0, p.1, p.2, hm, rfl⟩
    | none =>
      rw [hm] at h
      obtain ⟨n, suf, g, hmt, hc⟩ := ih (c :: seen) m h
      exact ⟨n + 1, suf, g, hmt, hc⟩

theorem reFirst_some (r : RE) (s : List Char) (m : MatchRes)
    (h : reFirst r s = some m) :
    ∃ n suf g, matchAt r (s.drop n) = some (suf, g) ∧ m.caps = g :=
  reFirstAux_some r s [] m h

theorem mrun_opt_elim {r : RE} {s : List Char} {g : Caps}
    {k : List Char → Caps → Option (List Char × Caps)} {res : List Char × Caps}
    (h : mrun (.opt r) s g k = some res) :
    mrun r s g k = some res ∨ k s g = some res := by
  simp only [mrun] at h
  cases h1 : mrun r s g k with
  | some r2 =>
    rw [h1] at h
    exact Or.inl (show some r2 = some res from h)
  | none =>
    rw [h1] at h
    exact Or.inr (show k s g = some res from h)

/-- Key soundness fact for the optional WHERE tails of the UPDATE and DELETE
parse patterns: when the pattern matches and the WHERE capture group is
present, the subject contains the literal `WHERE` (case-insensitively). -/
theorem whereTail_capture_hasSub (A : RE) (i : Nat) (hA : noGrp i A = true)
    (s : List Char) (m : MatchRes)
    (h : reFirst (.seq A (.opt (whereTail i))) s = some m)
    (hc : capsFind m.caps i ≠ none) :
    hasSubCI s (str "WHERE") := by
  obtain ⟨n, suf, g, hm, hcaps⟩ := reFirst_some _ _ _ h
  have hm2 : mrun A (s.drop n) []
      (fun s1 g1 => mrun (.opt (whereTail i)) s1 g1 (fun s2 g2 => some (s2, g2))) =
      some (suf, g) := hm
  obtain ⟨s1, g1, hs1, hk1, hg1⟩ := mrun_inv i A _ _ _ _ hm2
  have hg1i : capsFind g1 i = none := by
    rw [hg1 hA]; rfl
  have hk1' : mrun (.opt (whereTail i)) s1 g1 (fun s2 g2 => some (s2, g2)) =
      some (suf, g) := hk1
  rcases mrun_opt_elim hk1' with hop | hend
  case inr =>
    have hpair : (s1, g1) = (suf, g) := Option.some.inj hend
    have hgg : g1 = g := congrArg Prod.snd hpair
    exact absurd (by rw [hcaps, ← hgg]; exact hg1i) hc
  case inl =>
    have hop2 : mrun ws1 s1 g1
        (fun s2 g2 => mrun (.seq (reStrCI (str "WHERE")) (.seq ws1 (.grp i dotPlusGreedy)))
          s2 g2 (fun s3 g3 => some (s3, g3))) = some (suf, g) := hop
    obtain ⟨s2, g2, hs2, hk2, _⟩ := mrun_inv i ws1 _ _ _ _ hop2
    have hk2' : mrun (reStrCI (str "WHERE")) s2 g2
        (fun s3 g3 => mrun (.seq ws1 (.grp i dotPlusGreedy)) s3 g3
          (fun s4 g4 => some (s4, g4))) = some (suf, g) := hk2
    have hpre := mrun_reStrCI (str "WHERE") s2 g2 _ _ hk2'
    have hinf : (str "WHERE").map Char.toUpper <:+: s2.map Char.toUpper := hpre.isInfix
    have h2 : s2.map Char.toUpper <:+ s1.map Char.toUpper := hs2.map _
    have h1 : s1.map Char.toUpper <:+ (s.drop n).map Char.toUpper := hs1.map _
    have hd : (s.drop n).map Char.toUpper <:+ s.map Char.toUpper := by
      rw [List.map_drop]
      exact List.drop_suffix n _
    exact hinf.trans ((h2.trans (h1.trans hd)).isInfix)

/-! ## Claim C1: UPDATE/DELETE without a WHERE clause always fails -/

/-- C1: for every UPDATE statement and every DELETE statement whose text
contains no WHERE clause (no occurrence of the word, in any letter case),
the corresponding handler throws and issues no row-store call, so the
stored task collection is unchanged — regardless of whether the rest of
the statement is otherwise well-formed. -/
theorem updateDeleteWithoutWhereFails (sql : List Char) (db : List Todo)
    (h : ¬ hasSubCI sql (str "WHERE")) :
    ((handleUpdateQuery sql db).calls = 0 ∧ (handleUpdateQuery sql db).db = db ∧
      ∃ e, (handleUpdateQuery sql db).res = .error e) ∧
    ((handleDeleteQuery sql db).calls = 0 ∧ (handleDeleteQuery sql db).db = db ∧
      ∃ e, (handleDeleteQuery sql db).res = .error e) := by
  constructor
  · cases hq : reFirst updatePatQ sql with
    | some m =>
      have hw : capsFind m.caps 3 = none := by
        by_contra hcne
        exact h (whereTail_capture_hasSub updatePreQ 3 (by rfl) sql m hq hcne)
      simp only [handleUpdateQuery, hq, hw]
      exact ⟨by simp, by simp, _, rfl⟩
    | none =>
      cases hnq : reFirst updatePatNQ sql with
      | some m =>
        have hw : capsFind m.caps 3 = none := by
          by_contra hcne
          exact h (whereTail_capture_hasSub updatePreNQ 3 (by rfl) sql m hnq hcne)
        simp only [handleUpdateQuery, hq, hnq, hw]
        exact ⟨by simp, by simp, _, rfl⟩
      | none =>
        simp only [handleUpdateQuery, hq, hnq]
        exact ⟨by simp, by simp, _, rfl⟩
  · cases hq : reFirst deletePat sql with
    | some m =>
      have hw : capsFind m.caps 1 = none := by
        by_contra hcne
        exact h (whereTail_capture_hasSub (reStrCI (str "DELETE FROM todos")) 1
          (by rfl) sql m hq hcne)
      simp only [handleDeleteQuery, hq, hw]
      exact ⟨by simp, by simp, _, rfl⟩
    | none =>
      simp only [handleDeleteQuery, hq]
      exact ⟨by simp, by simp, _, rfl⟩

/-- Witness for C1: the fixture `DELETE FROM todos` and a WHERE-less UPDATE
both fail with no store call on a sample store. -/
theorem updateDeleteWithoutWhereFails_witness :
    ((handleUpdateQuery (str "UPDATE todos SET completed = true")
        [⟨str "1", str "a", false, 0⟩]).calls = 0 ∧
      (handleUpdateQuery (str "UPDATE todos SET completed = true")
        [⟨str "1", str "a", false, 0⟩]).db = [⟨str "1", str "a", false, 0⟩] ∧
      ∃ e, (handleUpdateQuery (str "UPDATE todos SET completed = true")
        [⟨str "1", str "a", false, 0⟩]).res = .error e) ∧
    ((handleDeleteQuery (str "DELETE FROM todos")
        [⟨str "1", str "a", false, 0⟩]).calls = 0 ∧
      (handleDeleteQuery (str "DELETE FROM todos")
        [⟨str "1", str "a", false, 0⟩]).db = [⟨str "1", str "a", false, 0⟩] ∧
      ∃ e, (handleDeleteQuery (str "DELETE FROM todos")
        [⟨str "1", str "a", false, 0⟩]).res = .error e) :=
  ⟨(updateDeleteWithoutWhereFails (str "UPDATE todos SET completed = true")
      [⟨str "1", str "a", false, 0⟩] (by decide)).1,
   (updateDeleteWithoutWhereFails (str "DELETE FROM todos")
      [⟨str "1", str "a", false, 0⟩] (by decide)).2⟩

/-! ## Claim C2: WHERE clauses that bypass the safety rail -/

/-- C2: a DELETE statement with a WHERE clause (`DELETE FROM todos WHERE id =`)
for which the handler neither applies a row filter nor raises the
unsupported-WHERE error: the id branch is taken because the clause contains
`id =`, the id extraction finds nothing, and the store delete is issued
unfiltered, removing every row of any store.  The same hole in
`handleUpdateQuery` sets `completed` on every row, and its ORDER BY/LIMIT
subquery branch on an empty store likewise issues an unfiltered update. -/
theorem whereClausePresentYetUnfiltered :
    (∀ db : List Todo,
      handleDeleteQuery (str "DELETE FROM todos WHERE id =") db =
        ⟨2, [], .ok []⟩) ∧
    (∀ db : List Todo,
      handleUpdateQuery (str "UPDATE todos SET completed = true WHERE id =") db =
        ⟨2, db.map (fun t => { t with completed := true }),
          .ok (sortDesc (db.map (fun t => { t with completed := true })))⟩) ∧
    handleUpdateQuery
      (str "UPDATE todos SET completed = true WHERE id= (SELECT id FROM todos ORDER BY created_at LIMIT 1)")
      [] = ⟨3, [], .ok []⟩ := by
  refine ⟨fun db => ?_, fun db => ?_, by rfl⟩
  · have h1 : handleDeleteQuery (str "DELETE FROM todos WHERE id =") db =
        execDelete none db := rfl
    rw [h1]
    simp [execDelete, rowMatches, sortDesc, List.insertionSort]
  · have h1 : handleUpdateQuery (str "UPDATE todos SET completed = true WHERE id =") db =
        execUpdate 0 (str "completed") (.vb true) none db := rfl
    have happ : ∀ t : Todo, applyUpdate (str "completed") (.vb true) t =
        { t with completed := true } := fun _ => rfl
    rw [h1]
    simp [execUpdate, rowMatches, happ]

/-! ## Claim C3: the post-validation decision -/

/-- C3: when the verdict is invalid and carries no suggestion the local
repairer is applied to the generated statement; if the repair changes
nothing the request aborts with a 400-class error carrying the verdict's
reason and nothing is executed; otherwise the statement actually executed
is the validator's suggestion when one is present, else the generator's
output (possibly repaired). -/
theorem postValidationDecisionSpec (v : Verdict) (sqlQuery query : List Char) :
    (v.valid = false → v.suggestion = none → fixSQLSyntax sqlQuery query = sqlQuery →
      postValidationDecision v sqlQuery query =
        .error (v.reason.getD [], sqlQuery, sqlQuery)) ∧
    (v.valid = false → v.suggestion = none → fixSQLSyntax sqlQuery query ≠ sqlQuery →
      postValidationDecision v sqlQuery query = .ok (fixSQLSyntax sqlQuery query)) ∧
    (∀ sug, v.suggestion = some sug → sug ≠ [] →
      postValidationDecision v sqlQuery query = .ok sug) ∧
    (v.valid = true → v.suggestion = none →
      postValidationDecision v sqlQuery query = .ok sqlQuery) := by
  refine ⟨fun h1 h2 h3 => ?_, fun h1 h2 h3 => ?_, fun sug hs hne => ?_, fun h1 h2 => ?_⟩
  · simp [postValidationDecision, h1, h2, h3]
  · simp [postValidationDecision, h1, h2, h3]
  · simp [postValidationDecision, hs, hne]
  · simp [postValidationDecision, h1, h2]

/-- Witness for C3: an invalid verdict without suggestion on a statement the
repairer leaves unchanged aborts with the verdict's reason. -/
theorem postValidationDecision_witness :
    postValidationDecision ⟨false, some (str "bad"), none⟩ (str "SELECT 1") (str "q") =
      .error (str "bad", str "SELECT 1", str "SELECT 1") :=
  (postValidationDecisionSpec ⟨false, some (str "bad"), none⟩
    (str "SELECT 1") (str "q")).1 rfl rfl (by rfl)

/-! ## Claim C6: the repairer round-trip fixture -/

/-- C6: `fixSQLSyntax` on the unquoted INSERT with original text
"add a task to buy milk" yields exactly the single-quoted, capitalized
statement. -/
theorem fixSQLSyntaxRoundTrip :
    fixSQLSyntax (str "INSERT INTO todos (title, completed) VALUES (buy milk, false)")
      (str "add a task to buy milk") =
    str "INSERT INTO todos (title, completed) VALUES (" ++ [cSQ] ++ str "Buy milk" ++
      [cSQ] ++ str ", false)" := by
  rfl

/-! ## Claim C7: the intent classifier -/

/-- C7: the classifier is total and deterministic with range
CREATE/READ/UPDATE/DELETE, defaults to READ when no keyword of any of the
four keyword sets occurs in the input, and the fixed precedence classifies
"mark task as done" as UPDATE. -/
theorem classifyIntentTotalDefaultPrecedence :
    (∀ q : List Char, classifyIntent q = str "CREATE" ∨ classifyIntent q = str "READ" ∨
      classifyIntent q = str "UPDATE" ∨ classifyIntent q = str "DELETE") ∧
    (∀ q : List Char,
      (∀ kw ∈ addKeywords, jsIncludes q kw = false) ∧
      (∀ kw ∈ deleteKeywords, jsIncludes q kw = false) ∧
      (∀ kw ∈ updateKeywords, jsIncludes q kw = false) ∧
      (∀ kw ∈ listKeywords, jsIncludes q kw = false) →
      classifyIntent q = str "READ") ∧
    classifyIntent (str "mark task as done") = str "UPDATE" := by
  refine ⟨fun q => ?_, fun q h => ?_, by rfl⟩
  · unfold classifyIntent
    repeat' split
    all_goals first
      | exact Or.inl rfl
      | exact Or.inr (Or.inl rfl)
      | exact Or.inr (Or.inr (Or.inl rfl))
      | exact Or.inr (Or.inr (Or.inr rfl))
  · obtain ⟨h1, h2, h3, h4⟩ := h
    have hso := h4 (str "show") (by decide)
    have hli := h4 (str "list") (by decide)
    have hdi := h4 (str "display") (by decide)
    have hge := h4 (str "get") (by decide)
    have hma := h3 (str "mark") (by decide)
    have hfi := h3 (str "finish") (by decide)
    have hse := h3 (str "set") (by decide)
    have hadd : addKeywords.any (fun kw => jsIncludes q kw) = false := by
      rw [List.any_eq_false]
      exact fun kw hkw => by simp [h1 kw hkw]
    have hdel : deleteKeywords.any (fun kw => jsIncludes q kw) = false := by
      rw [List.any_eq_false]
      exact fun kw hkw => by simp [h2 kw hkw]
    have hupd : updateKeywords.any (fun kw => jsIncludes q kw) = false := by
      rw [List.any_eq_false]
      exact fun kw hkw => by simp [h3 kw hkw]
    have hlis : listKeywords.any (fun kw => jsIncludes q kw) = false := by
      rw [List.any_eq_false]
      exact fun kw hkw => by simp [h4 kw hkw]
    simp [classifyIntent, hso, hli, hdi, hge, hma, hfi, hse, hadd, hdel, hupd, hlis]

/-- Witness for C7: an input matching no keyword classifies as READ. -/
theorem classifyIntent_witness : classifyIntent (str "xyzw") = str "READ" :=
  classifyIntentTotalDefaultPrecedence.2.1 (str "xyzw")
    ⟨by decide, by decide, by decide, by decide⟩

/-! ## Claim C4: the validator fallback -/

/-- C4 (amended): the fallback verdict is invalid exactly when the statement
contains one of the dangerous substrings anywhere (qualified statements
included), or the unquoted-VALUES regex fires, or the statement trims to
empty; the unquoted-VALUES case also returns the Repairer-fixed suggestion
and the quoting reason, and it is the only case with a suggestion. -/
theorem validateFallbackCharacterization (oq sql : List Char) :
    ((validateSQLFallback oq sql).valid = false ↔
      ((∃ kw ∈ dangerousKeywords, kw.map Char.toLower <:+: sql.map Char.toLower) ∨
        (reFirst unquotedValuesRE sql).isSome = true ∨ trimJS sql = [])) ∧
    ((reFirst unquotedValuesRE sql).isSome = true →
      (validateSQLFallback oq sql).suggestion = some (fixSQLSyntax sql oq) ∧
      (validateSQLFallback oq sql).reason =
        some (str "String literals must be properly quoted with single quotes")) ∧
    ((reFirst unquotedValuesRE sql).isSome = false →
      (validateSQLFallback oq sql).suggestion = none ∧
      ((∃ kw ∈ dangerousKeywords, kw.map Char.toLower <:+: sql.map Char.toLower) →
        (validateSQLFallback oq sql).reason =
          some (str "Query contains potentially dangerous operations"))) := by
  have hdang : (dangerousKeywords.any
      (fun kw => jsIncludes (sql.map Char.toLower) (kw.map Char.toLower))) = true ↔
      (∃ kw ∈ dangerousKeywords, kw.map Char.toLower <:+: sql.map Char.toLower) := by
    rw [List.any_eq_true]
    constructor
    · rintro ⟨kw, hkw, hin⟩
      exact ⟨kw, hkw, of_decide_eq_true hin⟩
    · rintro ⟨kw, hkw, hin⟩
      exact ⟨kw, hkw, decide_eq_true hin⟩
  refine ⟨?_, fun htrue => ?_, fun hfalse => ?_⟩
  · by_cases hU : (reFirst unquotedValuesRE sql).isSome = true
    · simp [validateSQLFallback, hU]
    · have hU2 : (reFirst unquotedValuesRE sql).isSome = false := by
        revert hU
        cases (reFirst unquotedValuesRE sql).isSome <;> simp
      simp [validateSQLFallback, hU2]
      constructor
      · intro himp
        by_cases hex : ∃ kw ∈ dangerousKeywords,
            List.map Char.toLower kw <:+: List.map Char.toLower sql
        · exact Or.inl hex
        · refine Or.inr (himp fun x hx => ?_)
          cases hj : jsIncludes (List.map Char.toLower sql) (List.map Char.toLower x)
          · rfl
          · exact absurd ⟨x, hx, of_decide_eq_true hj⟩ hex
      · rintro (⟨kw, hkw, hin⟩ | hb)
        · intro hall
          have h1 : jsIncludes (List.map Char.toLower sql) (List.map Char.toLower kw) = true :=
            decide_eq_true hin
          rw [hall kw hkw] at h1
          cases h1
        · exact fun _ => hb
  · simp [validateSQLFallback, htrue]
  · constructor
    · simp [validateSQLFallback, hfalse]
    · intro hd
      simp [validateSQLFallback, hfalse, hdang.mpr hd]

/-- Counterexample for C4 as stated: the qualified statement
`DELETE FROM todos WHERE id = 1` has a WHERE clause, contains no
drop/alter/truncate keyword, no unquoted VALUES clause, and is non-empty,
yet the fallback flags it invalid — because the dangerous-substring test
matches `delete from todos` anywhere, qualified or not. -/
theorem validateFallbackQualifiedDeleteFlagged :
    (validateSQLFallback [] (str "DELETE FROM todos WHERE id = 1")).valid = false ∧
    hasSubCI (str "DELETE FROM todos WHERE id = 1") (str "WHERE") ∧
    (str "DELETE FROM todos WHERE id = 1") ≠ [] ∧
    trimJS (str "DELETE FROM todos WHERE id = 1") ≠ [] ∧
    (reFirst unquotedValuesRE (str "DELETE FROM todos WHERE id = 1")).isSome = false ∧
    ¬ ((str "drop").map Char.toLower <:+:
        (str "DELETE FROM todos WHERE id = 1").map Char.toLower) ∧
    ¬ ((str "alter").map Char.toLower <:+:
        (str "DELETE FROM todos WHERE id = 1").map Char.toLower) ∧
    ¬ ((str "truncate").map Char.toLower <:+:
        (str "DELETE FROM todos WHERE id = 1").map Char.toLower) := by
  decide

/-- Witness for C4: an unquoted-VALUES statement gets the Repairer-fixed
suggestion. -/
theorem validateFallbackCharacterization_witness :
    (validateSQLFallback (str "add a task to buy milk")
        (str "INSERT INTO todos (title, completed) VALUES (buy milk, false)")).suggestion =
      some (fixSQLSyntax
        (str "INSERT INTO todos (title, completed) VALUES (buy milk, false)")
        (str "add a task to buy milk")) ∧
    (validateSQLFallback (str "add a task to buy milk")
        (str "INSERT INTO todos (title, completed) VALUES (buy milk, false)")).reason =
      some (str "String literals must be properly quoted with single quotes") :=
  (validateFallbackCharacterization (str "add a task to buy milk")
    (str "INSERT INTO todos (title, completed) VALUES (buy milk, false)")).2.1 (by rfl)

/-! ## Claim C9: the SELECT handler -/

theorem reFirst_litCI_head (w : List Char) (R : RE) (s : List Char) (m : MatchRes)
    (h : reFirst (.seq (reStrCI w) R) s = some m) : hasSubCI s w := by
  obtain ⟨n, suf, g, hm, _⟩ := reFirst_some _ _ _ h
  have hm2 : mrun (reStrCI w) (s.drop n) []
      (fun s1 g1 => mrun R s1 g1 (fun s2 g2 => some (s2, g2))) = some (suf, g) := hm
  have hpre := mrun_reStrCI w _ _ _ _ hm2
  have hd : (s.drop n).map Char.toUpper <:+ s.map Char.toUpper := by
    rw [List.map_drop]
    exact List.drop_suffix n _
  exact hpre.isInfix.trans hd.isInfix

/-- C9: the SELECT handler recognizes exactly the three WHERE shapes in
source order (LIKE as case-insensitive substring filter, exact title,
completed boolean); any other WHERE content is silently ignored and the
full set is returned; the store is never mutated, results are always
ordered by `created_at` descending, and a statement without a WHERE clause
returns the full list. -/
theorem handleSelectQuerySpec :
    (∀ sql db, (handleSelectQuery sql db).db = db ∧
      ∃ rows, (handleSelectQuery sql db).res = .ok rows ∧ rows.Sorted createdDesc) ∧
    (∀ sql db, ¬ hasSubCI sql (str "WHERE") →
      (handleSelectQuery sql db).res = .ok (sortDesc db)) ∧
    (∀ sql db m, reFirst selectWhereRE sql = some m →
      reFirst likeRE (trimJS ((capsFind m.caps 1).getD [])) = none →
      reFirst titleEqRE (trimJS ((capsFind m.caps 1).getD [])) = none →
      reFirst completedRE (trimJS ((capsFind m.caps 1).getD [])) = none →
      (handleSelectQuery sql db).res = .ok (sortDesc db)) ∧
    (∀ sql db m m2, reFirst selectWhereRE sql = some m →
      reFirst likeRE (trimJS ((capsFind m.caps 1).getD [])) = some m2 →
      (handleSelectQuery sql db).res = .ok (sortDesc (db.filter
        (fun t => containsCI ((capsFind m2.caps 1).getD []) t.title)))) ∧
    (∀ sql db m m2, reFirst selectWhereRE sql = some m →
      reFirst likeRE (trimJS ((capsFind m.caps 1).getD [])) = none →
      reFirst titleEqRE (trimJS ((capsFind m.caps 1).getD [])) = some m2 →
      (handleSelectQuery sql db).res = .ok (sortDesc (db.filter
        (fun t => t.title == (capsFind m2.caps 1).getD [])))) ∧
    (∀ sql db m m2, reFirst selectWhereRE sql = some m →
      reFirst likeRE (trimJS ((capsFind m.caps 1).getD [])) = none →
      reFirst titleEqRE (trimJS ((capsFind m.caps 1).getD [])) = none →
      reFirst completedRE (trimJS ((capsFind m.caps 1).getD [])) = some m2 →
      (handleSelectQuery sql db).res = .ok (sortDesc (db.filter
        (fun t => t.completed ==
          (((capsFind m2.caps 1).getD []).map Char.toLower == str "true"))))) := by
  refine ⟨fun sql db => ?_, fun sql db h => ?_, fun sql db m h1 h2 h3 h4 => ?_,
    fun sql db m m2 h1 h2 => ?_, fun sql db m m2 h1 h2 h3 => ?_,
    fun sql db m m2 h1 h2 h3 h4 => ?_⟩
  · cases hre : reFirst selectWhereRE sql with
    | some m =>
      refine ⟨by simp [handleSelectQuery, hre], ?_⟩
      simp only [handleSelectQuery, hre]
      exact ⟨_, rfl, List.sorted_insertionSort createdDesc _⟩
    | none =>
      refine ⟨by simp [handleSelectQuery, hre], ?_⟩
      simp only [handleSelectQuery, hre]
      exact ⟨_, rfl, List.sorted_insertionSort createdDesc _⟩
  · cases hre : reFirst selectWhereRE sql with
    | some m =>
      exact absurd (reFirst_litCI_head (str "WHERE") _ sql m
        (by simpa only [selectWhereRE, reSeqs] using hre)) h
    | none => simp [handleSelectQuery, hre]
  · simp only [handleSelectQuery, h1, h2, h3, h4]
    rw [show rowMatches none = (fun _ : Todo => true) from funext fun _ => rfl]
    simp
  · simp only [handleSelectQuery, h1, h2]
    rw [show rowMatches (some (RowFilter.byLike ((capsFind m2.caps 1).getD []))) =
      (fun t : Todo => containsCI ((capsFind m2.caps 1).getD []) t.title)
      from funext fun _ => rfl]
  · simp only [handleSelectQuery, h1, h2, h3]
    rw [show rowMatches (some (RowFilter.byTitle ((capsFind m2.caps 1).getD []))) =
      (fun t : Todo => t.title == (capsFind m2.caps 1).getD [])
      from funext fun _ => rfl]
  · simp only [handleSelectQuery, h1, h2, h3, h4]
    rw [show rowMatches (some (RowFilter.byCompleted
        (((capsFind m2.caps 1).getD []).map Char.toLower == str "true"))) =
      (fun t : Todo => t.completed ==
        (((capsFind m2.caps 1).getD []).map Char.toLower == str "true"))
      from funext fun _ => rfl]

/-- Witness for C9: a SELECT without WHERE returns the full ordered list. -/
theorem handleSelectQuery_witness :
    (handleSelectQuery (str "SELECT * FROM todos")
      [⟨str "1", str "a", false, 0⟩, ⟨str "2", str "b", true, 5⟩]).res =
    .ok (sortDesc [⟨str "1", str "a", false, 0⟩, ⟨str "2", str "b", true, 5⟩]) :=
  handleSelectQuerySpec.2.1 (str "SELECT * FROM todos")
    [⟨str "1", str "a", false, 0⟩, ⟨str "2", str "b", true, 5⟩] (by decide)

/-! ## Claim C5: the preprocessor -/

theorem char_toNat_ofNat (n : Nat) (h : n.isValidChar) : (Char.ofNat n).toNat = n := by
  simp [Char.ofNat, h, Char.ofNatAux, Char.toNat, UInt32.toNat]

theorem char_toLower_idem (c : Char) : c.toLower.toLower = c.toLower := by
  by_cases h : c.toNat ≥ 65 ∧ c.toNat ≤ 90
  · have hv : (c.toNat + 32).isValidChar := by left; omega
    have h2 : (Char.ofNat (c.toNat + 32)).toNat = c.toNat + 32 := char_toNat_ofNat _ hv
    have e1 : c.toLower = Char.ofNat (c.toNat + 32) := by unfold Char.toLower; rw [if_pos h]
    rw [e1]
    unfold Char.toLower
    rw [h2, if_neg (by omega)]
  · have e1 : c.toLower = c := by unfold Char.toLower; rw [if_neg h]
    rw [e1, e1]

theorem char_toUpper_idem (c : Char) : c.toUpper.toUpper = c.toUpper := by
  by_cases h : c.toNat ≥ 97 ∧ c.toNat ≤ 122
  · have hv : (c.toNat - 32).isValidChar := by left; omega
    have h2 : (Char.ofNat (c.toNat - 32)).toNat = c.toNat - 32 := char_toNat_ofNat _ hv
    have e1 : c.toUpper = Char.ofNat (c.toNat - 32) := by unfold Char.toUpper; rw [if_pos h]
    rw [e1]
    unfold Char.toUpper
    rw [h2, if_neg (by omega)]
  · have e1 : c.toUpper = c := by unfold Char.toUpper; rw [if_neg h]
    rw [e1, e1]

theorem word_not_ws (c : Char) (h : jsIsWord c = true) : jsIsWs c = false := by
  cases hws : jsIsWs c
  · rfl
  · exfalso
    simp only [jsIsWs, Bool.or_eq_true, beq_iff_eq] at hws
    rcases hws with ((((h1 | h1) | h1) | h1) | h1) | h1 <;> subst h1 <;>
      exact absurd h (by decide)

theorem trimR_isPre (m : List Char) : trimR m <+: m := by
  have h1 : (trimR m).reverse <:+ m.reverse := by
    unfold trimR
    rw [List.reverse_reverse]
    exact List.dropWhile_suffix jsIsWs
  exact List.reverse_suffix.mp h1

theorem trimJS_mem (m : List Char) (c : Char) (hc : c ∈ trimJS m) : c ∈ m :=
  (List.dropWhile_sublist _).subset ((trimR_isPre (trimL m)).sublist.subset hc)

theorem trimL_head_not_ws (m : List Char) (c : Char) (h : (trimL m).head? = some c) :
    jsIsWs c = false := by
  have h2 := List.head?_dropWhile_not jsIsWs m
  unfold trimL at h
  rw [h] at h2
  simpa using h2

theorem isPre_head? (u v : List Char) (h : u <+: v) (c : Char) (hc : u.head? = some c) :
    v.head? = some c := by
  obtain ⟨t, rfl⟩ := h
  cases u with
  | nil => cases hc
  | cons a u' => simpa using hc

theorem trimJS_head_not_ws (m : List Char) (c : Char) (h : (trimJS m).head? = some c) :
    jsIsWs c = false :=
  trimL_head_not_ws m c (isPre_head? _ _ (trimR_isPre (trimL m)) c h)

theorem trimJS_getLast_not_ws (m : List Char) (c : Char) (h : (trimJS m).getLast? = some c) :
    jsIsWs c = false := by
  have h2 : ((trimL m).reverse.dropWhile jsIsWs).head? = some c := by
    have h3 : (trimJS m).getLast? = ((trimJS m).reverse).head? := (List.head?_reverse _).symm
    rw [h3] at h
    unfold trimJS trimR at h
    rw [List.reverse_reverse] at h
    exact h
  have h4 := List.head?_dropWhile_not jsIsWs (trimL m).reverse
  rw [h2] at h4
  simpa using h4

theorem trimL_eq_self (m : List Char) (h : ∀ c, m.head? = some c → jsIsWs c = false) :
    trimL m = m := by
  cases m with
  | nil => rfl
  | cons a t =>
    unfold trimL
    rw [List.dropWhile_cons, if_neg (by simp [h a rfl])]

theorem trimR_eq_self (m : List Char) (h : ∀ c, m.getLast? = some c → jsIsWs c = false) :
    trimR m = m := by
  unfold trimR
  have h2 : m.reverse.dropWhile jsIsWs = m.reverse := by
    apply trimL_eq_self
    intro c hc
    rw [List.head?_reverse] at hc
    exact h c hc
  rw [h2, List.reverse_reverse]

theorem trimJS_eq_self (m : List Char)
    (hh : ∀ c, m.head? = some c → jsIsWs c = false)
    (hl : ∀ c, m.getLast? = some c → jsIsWs c = false) : trimJS m = m := by
  unfold trimJS
  rw [trimL_eq_self m hh, trimR_eq_self m hl]

theorem collapseWsAux_mem : ∀ (l : List Char) (b : Bool), ∀ c ∈ collapseWsAux b l,
    c = ' ' ∨ (c ∈ l ∧ jsIsWs c = false) := by
  intro l
  induction l with
  | nil => intro b c hc; cases hc
  | cons a t ih =>
    intro b c hc
    by_cases ha : jsIsWs a = true
    · cases b with
      | true =>
        rw [show collapseWsAux true (a :: t) = collapseWsAux true t by
          simp [collapseWsAux, ha]] at hc
        rcases ih true c hc with h1 | ⟨h2, h3⟩
        · exact Or.inl h1
        · exact Or.inr ⟨List.mem_cons_of_mem a h2, h3⟩
      | false =>
        rw [show collapseWsAux false (a :: t) = ' ' :: collapseWsAux true t by
          simp [collapseWsAux, ha]] at hc
        rcases List.mem_cons.mp hc with h1 | h1
        · exact Or.inl h1
        · rcases ih true c h1 with h2 | ⟨h3, h4⟩
          · exact Or.inl h2
          · exact Or.inr ⟨List.mem_cons_of_mem a h3, h4⟩
    · rw [show collapseWsAux b (a :: t) = a :: collapseWsAux false t by
        simp [collapseWsAux, ha]] at hc
      rcases List.mem_cons.mp hc with h1 | h1
      · rw [h1]
        exact Or.inr ⟨List.mem_cons_self a t, by simpa using ha⟩
      · rcases ih false c h1 with h2 | ⟨h3, h4⟩
        · exact Or.inl h2
        · exact Or.inr ⟨List.mem_cons_of_mem a h3, h4⟩

theorem collapseWs_mem (l : List Char) : ∀ c ∈ collapseWs l,
    c = ' ' ∨ (c ∈ l ∧ jsIsWs c = false) :=
  collapseWsAux_mem l false

theorem collapseWsAux_true_head : ∀ (t : List Char) (c : Char),
    (collapseWsAux true t).head? = some c → jsIsWs c = false := by
  intro t
  induction t with
  | nil => intro c hc; cases hc
  | cons d t' ih =>
    intro c hc
    by_cases hd : jsIsWs d = true
    · rw [show collapseWsAux true (d :: t') = collapseWsAux true t' by
        simp [collapseWsAux, hd]] at hc
      exact ih c hc
    · rw [show collapseWsAux true (d :: t') = d :: collapseWsAux false t' by
        simp [collapseWsAux, hd]] at hc
      have hdc : d = c := by simpa using hc
      cases hdc
      simpa using hd

theorem collapseWsAux_chain : ∀ (l : List Char) (b : Bool),
    List.Chain' (fun a b => jsIsWs a = true → jsIsWs b = false) (collapseWsAux b l) := by
  intro l
  induction l with
  | nil => intro b; simp [collapseWsAux]
  | cons a t ih =>
    intro b
    by_cases ha : jsIsWs a = true
    · cases b with
      | true =>
        rw [show collapseWsAux true (a :: t) = collapseWsAux true t by
          simp [collapseWsAux, ha]]
        exact ih true
      | false =>
        rw [show collapseWsAux false (a :: t) = ' ' :: collapseWsAux true t by
          simp [collapseWsAux, ha]]
        rw [List.chain'_cons']
        refine ⟨?_, ih true⟩
        intro b2 hb2 _
        exact collapseWsAux_true_head t b2 (by simpa using hb2)
    · rw [show collapseWsAux b (a :: t) = a :: collapseWsAux false t by
        simp [collapseWsAux, ha]]
      rw [List.chain'_cons']
      refine ⟨?_, ih false⟩
      intro b2 _ hws
      exact absurd hws (by simpa using ha)

theorem collapseWs_chain (l : List Char) :
    List.Chain' (fun a b => jsIsWs a = true → jsIsWs b = false) (collapseWs l) :=
  collapseWsAux_chain l false

theorem collapseWsAux_eq_self : ∀ l : List Char,
    List.Chain' (fun a b => jsIsWs a = true → jsIsWs b = false) l →
    (∀ c ∈ l, jsIsWs c = true → c = ' ') →
    (collapseWsAux false l = l ∧
      ((∀ c, l.head? = some c → jsIsWs c = false) → collapseWsAux true l = l)) := by
  intro l
  induction l with
  | nil => intro _ _; exact ⟨rfl, fun _ => rfl⟩
  | cons a t ih =>
    intro hch hsp
    have iht := ih hch.tail (fun d hd => hsp d (List.mem_cons_of_mem a hd))
    constructor
    · by_cases ha : jsIsWs a = true
      · have ha' : a = ' ' := hsp a (List.mem_cons_self a t) ha
        have hthead : ∀ c, t.head? = some c → jsIsWs c = false := by
          intro c hc
          cases t with
          | nil => cases hc
          | cons b t' =>
            have hcb : b = c := by simpa using hc
            cases hcb
            exact (List.chain'_cons.mp hch).1 ha
        rw [show collapseWsAux false (a :: t) = ' ' :: collapseWsAux true t by
          simp [collapseWsAux, ha]]
        rw [iht.2 hthead, ha']
      · rw [show collapseWsAux false (a :: t) = a :: collapseWsAux false t by
          simp [collapseWsAux, ha]]
        rw [iht.1]
    · intro hhead
      have ha : jsIsWs a = false := hhead a rfl
      rw [show collapseWsAux true (a :: t) = a :: collapseWsAux false t by
        simp [collapseWsAux, ha]]
      rw [iht.1]

theorem collapseWs_eq_self (l : List Char)
    (hch : List.Chain' (fun a b => jsIsWs a = true → jsIsWs b = false) l)
    (hsp : ∀ c ∈ l, jsIsWs c = true → c = ' ') : collapseWs l = l :=
  (collapseWsAux_eq_self l hch hsp).1

theorem preprocess_chars (x : List Char) :
    ∀ c ∈ preprocessQuery x, Char.toLower c = c ∧ (jsIsWord c = true ∨ c = ' ') := by
  intro c hc
  unfold preprocessQuery at hc
  have hc2 := trimJS_mem _ _ hc
  obtain ⟨d, hd, hgd⟩ := List.mem_map.mp hc2
  rcases collapseWs_mem _ d hd with hdsp | ⟨hdmem, hdws⟩
  · subst hdsp
    rw [show (if !jsIsWord ' ' && !jsIsWs ' ' then ' ' else ' ') = ' ' by decide] at hgd
    subst hgd
    exact ⟨by decide, Or.inr rfl⟩
  · have hdlow : Char.toLower d = d := by
      obtain ⟨e, _, hed⟩ := List.mem_map.mp (trimJS_mem _ _ hdmem)
      rw [← hed]
      exact char_toLower_idem e
    by_cases hword : jsIsWord d = true
    · rw [show (if !jsIsWord d && !jsIsWs d then ' ' else d) = d by simp [hword]] at hgd
      subst hgd
      exact ⟨hdlow, Or.inl hword⟩
    · rw [show (if !jsIsWord d && !jsIsWs d then ' ' else d) = ' ' by
        simp [hdws]
        intro hcontra
        exact absurd hcontra hword] at hgd
      subst hgd
      exact ⟨by decide, Or.inr rfl⟩

theorem preprocess_head_not_ws (x : List Char) (c : Char)
    (h : (preprocessQuery x).head? = some c) : jsIsWs c = false :=
  trimJS_head_not_ws _ c h

theorem preprocess_last_not_ws (x : List Char) (c : Char)
    (h : (preprocessQuery x).getLast? = some c) : jsIsWs c = false :=
  trimJS_getLast_not_ws _ c h

theorem preprocess_once_good (y : List Char)
    (hcls : ∀ c ∈ y, Char.toLower c = c ∧ (jsIsWord c = true ∨ c = ' '))
    (hh : ∀ c, y.head? = some c → jsIsWs c = false)
    (hl : ∀ c, y.getLast? = some c → jsIsWs c = false) :
    preprocessQuery y = trimJS (collapseWs y) := by
  have hmap1 : y.map Char.toLower = y :=
    (List.map_congr_left (fun c hc => (hcls c hc).1)).trans (List.map_id y)
  have hmapg : (collapseWs y).map
      (fun c => if !jsIsWord c && !jsIsWs c then ' ' else c) = collapseWs y := by
    refine (List.map_congr_left ?_).trans (List.map_id _)
    intro c hc
    rcases collapseWs_mem _ c hc with hsp | ⟨hmem, _⟩
    · subst hsp; decide
    · rcases (hcls c hmem).2 with hword | hsp2
      · simp [hword]
      · subst hsp2; decide
  unfold preprocessQuery
  rw [hmap1, trimJS_eq_self y hh hl, hmapg]

theorem preprocess_fixpoint (z : List Char)
    (hcls : ∀ c ∈ z, Char.toLower c = c ∧ (jsIsWord c = true ∨ c = ' '))
    (hh : ∀ c, z.head? = some c → jsIsWs c = false)
    (hl : ∀ c, z.getLast? = some c → jsIsWs c = false)
    (hch : List.Chain' (fun a b => jsIsWs a = true → jsIsWs b = false) z) :
    preprocessQuery z = z := by
  rw [preprocess_once_good z hcls hh hl]
  have hsp : ∀ c ∈ z, jsIsWs c = true → c = ' ' := by
    intro c hc hw
    rcases (hcls c hc).2 with hword | hsp
    · rw [word_not_ws c hword] at hw; cases hw
    · exact hsp
  rw [collapseWs_eq_self z hch hsp]
  exact trimJS_eq_self z hh hl

/-- C5 (amended): a single application of the preprocessor is not idempotent
(see the counterexample below), but the preprocessor composed with itself
is: a third application never changes the result of two. -/
theorem preprocessTripleIdem (x : List Char) :
    preprocessQuery (preprocessQuery (preprocessQuery x)) =
    preprocessQuery (preprocessQuery x) := by
  apply preprocess_fixpoint
  · exact preprocess_chars (preprocessQuery x)
  · exact preprocess_head_not_ws (preprocessQuery x)
  · exact preprocess_last_not_ws (preprocessQuery x)
  · rw [preprocess_once_good (preprocessQuery x) (preprocess_chars x)
      (preprocess_head_not_ws x) (preprocess_last_not_ws x)]
    have h1 : List.Chain' (fun a b => jsIsWs a = true → jsIsWs b = false)
        (trimL (collapseWs (preprocessQuery x))) :=
      (collapseWs_chain _).suffix (List.dropWhile_suffix jsIsWs)
    exact h1.prefix (trimR_isPre _)

/-- Counterexample for C5 as stated: punctuation replaced by spaces after
whitespace collapsing creates a double space that only a second pass
collapses, so `preprocessQuery` is not idempotent. -/
theorem preprocessNotIdem :
    preprocessQuery (preprocessQuery (str "a..b")) ≠ preprocessQuery (str "a..b") := by
  decide

/-! ## Claim C8: the extractor never returns empty when a keyword occurs -/

theorem ws_toUpper_fixed (c : Char) (h : jsIsWs c = true) : Char.toUpper c = c := by
  simp only [jsIsWs, Bool.or_eq_true, beq_iff_eq] at h
  rcases h with ((((h1 | h1) | h1) | h1) | h1) | h1 <;> subst h1 <;> decide

theorem map_eq_append_split {f : Char → Char} :
    ∀ {l a b : List Char}, l.map f = a ++ b →
      ∃ a2 b2, l = a2 ++ b2 ∧ a2.map f = a ∧ b2.map f = b := by
  intro l
  induction l with
  | nil =>
    intro a b h
    rw [List.map_nil, eq_comm, List.append_eq_nil] at h
    exact ⟨[], [], rfl, by simp [h.1], by simp [h.2]⟩
  | cons c t ih =>
    intro a b h
    cases a with
    | nil => exact ⟨[], c :: t, rfl, rfl, by simpa using h⟩
    | cons x a2 =>
      rw [List.map_cons, List.cons_append, List.cons.injEq] at h
      obtain ⟨a3, b3, he, hma, hmb⟩ := ih h.2
      exact ⟨c :: a3, b3, by rw [he]; rfl, by simp [hma, h.1], hmb⟩

theorem seg_shift (k0 k1 : Char) (kr : List Char) :
    ∀ (tpl rest : List Char),
      (∀ x y, [x, y] <:+: tpl → ¬(k0 = x ∧ k1 = y)) →
      (∀ x, tpl.getLast? = some x → k0 ≠ x) →
      (k0 :: k1 :: kr) <:+: tpl ++ rest → (k0 :: k1 :: kr) <:+: rest := by
  intro tpl
  induction tpl with
  | nil => intro rest _ _ h; simpa using h
  | cons a tpl2 ih =>
    intro rest hpair hlast hinf
    obtain ⟨u, v, huv⟩ := hinf
    cases u with
    | nil =>
      cases tpl2 with
      | nil =>
        rw [show ([a] ++ rest : List Char) = a :: rest from rfl] at huv
        simp only [List.nil_append, List.cons_append, List.cons.injEq] at huv
        exact absurd huv.1 (hlast a rfl)
      | cons b tpl3 =>
        simp only [List.nil_append, List.cons_append, List.cons.injEq] at huv
        exact absurd ⟨huv.1, huv.2.1⟩
          (hpair a b ⟨[], tpl3, by simp⟩)
    | cons a2 u2 =>
      simp only [List.cons_append, List.cons.injEq] at huv
      refine ih rest (fun x y hxy => hpair x y ?_) (fun x hx => hlast x ?_) ⟨u2, v, huv.2⟩
      · obtain ⟨p, q, hpq⟩ := hxy
        exact ⟨a :: p, q, by rw [← hpq]; rfl⟩
      · cases tpl2 with
        | nil => cases hx
        | cons b tpl3 => simpa using hx

theorem stripSqlFence_keep (c : Char) (m : List Char)
    (h : ¬ ((c :: m).take 6).map Char.toUpper = [cBT, cBT, cBT, 'S', 'Q', 'L']) :
    stripSqlFence (c :: m) = c :: stripSqlFence m := by
  rcases m with _ | ⟨c2, _ | ⟨c3, _ | ⟨c4, _ | ⟨c5, _ | ⟨c6, rest⟩⟩⟩⟩⟩
  · rfl
  · rfl
  · rfl
  · rfl
  · rfl
  · have h2 : ¬ ((c :: c2 :: c3 :: c4 :: c5 :: [c6]).map Char.toUpper =
        [cBT, cBT, cBT, 'S', 'Q', 'L']) := by
      simpa [List.take] using h
    rcases rest with _ | ⟨d, rest2⟩
    · rw [stripSqlFence.eq_1, if_neg h2]
    · rw [stripSqlFence.eq_2, if_neg h2]

theorem stripSqlFence_chunk_nil (c1 c2 c3 c4 c5 c6 : Char)
    (h : (c1 :: c2 :: c3 :: c4 :: c5 :: [c6]).map Char.toUpper =
      [cBT, cBT, cBT, 'S', 'Q', 'L']) :
    stripSqlFence [c1, c2, c3, c4, c5, c6] = [] := by
  rw [stripSqlFence.eq_1, if_pos h]

theorem stripSqlFence_chunk_nl (c1 c2 c3 c4 c5 c6 : Char) (rest2 : List Char)
    (h : (c1 :: c2 :: c3 :: c4 :: c5 :: [c6]).map Char.toUpper =
      [cBT, cBT, cBT, 'S', 'Q', 'L']) :
    stripSqlFence (c1 :: c2 :: c3 :: c4 :: c5 :: c6 :: cNL :: rest2) =
      stripSqlFence rest2 := by
  rw [stripSqlFence.eq_2, if_pos h]
  simp

theorem stripSqlFence_chunk_other (c1 c2 c3 c4 c5 c6 d : Char) (rest2 : List Char)
    (h : (c1 :: c2 :: c3 :: c4 :: c5 :: [c6]).map Char.toUpper =
      [cBT, cBT, cBT, 'S', 'Q', 'L'])
    (hd : ¬ d = cNL) :
    stripSqlFence (c1 :: c2 :: c3 :: c4 :: c5 :: c6 :: d :: rest2) =
      stripSqlFence (d :: rest2) := by
  rw [stripSqlFence.eq_2, if_pos h]
  simp [hd]

theorem stripSqlFence_append (a : List Char) :
    ∀ b, (∀ x ∈ a, Char.toUpper x ≠ cBT) →
      stripSqlFence (a ++ b) = a ++ stripSqlFence b := by
  induction a with
  | nil => intro b _; rfl
  | cons c a2 ih =>
    intro b hx
    have hkeep : ¬ (((c :: (a2 ++ b)).take 6).map Char.toUpper =
        [cBT, cBT, cBT, 'S', 'Q', 'L']) := by
      intro hcontra
      have hc1 : Char.toUpper c = cBT := by
        cases h6 : (a2 ++ b) with
        | nil => simp [h6, List.take] at hcontra
        | cons z zs =>
          rw [h6] at hcontra
          rcases zs with _ | ⟨z2, _ | ⟨z3, _ | ⟨z4, _ | ⟨z5, zr⟩⟩⟩⟩ <;>
            simp [List.take] at hcontra <;> exact hcontra.1
      exact hx c (List.mem_cons_self c a2) hc1
    rw [List.cons_append, stripSqlFence_keep _ _ hkeep,
      ih b (fun x hx2 => hx x (List.mem_cons_of_mem c hx2))]
    rfl

theorem fence_window6 (k0 k1 : Char) (hb : ¬ cBT ∈ (k0 :: k1 :: ([] : List Char)))
    (h0q : k0 ≠ 'Q') (h0l : k0 ≠ 'L') (hsq : k0 = 'S' → k1 ≠ 'Q') :
    ∀ x y, [x, y] <:+: [cBT, cBT, cBT, 'S', 'Q', 'L'] → ¬(k0 = x ∧ k1 = y) := by
  intro x y hxy
  rintro ⟨rfl, rfl⟩
  obtain ⟨u, v, huv⟩ := hxy
  simp only [List.mem_cons, List.not_mem_nil] at hb
  rcases u with _ | ⟨u1, _ | ⟨u2, _ | ⟨u3, _ | ⟨u4, _ | ⟨u5, _ | ⟨u6, ur⟩⟩⟩⟩⟩⟩ <;>
    simp_all [List.append_eq_cons]

theorem fence_window7 (k0 k1 : Char) (hb : ¬ cBT ∈ (k0 :: k1 :: ([] : List Char)))
    (h0q : k0 ≠ 'Q') (h0l : k0 ≠ 'L') (h0n : k0 ≠ cNL) (hsq : k0 = 'S' → k1 ≠ 'Q') :
    ∀ x y, [x, y] <:+: [cBT, cBT, cBT, 'S', 'Q', 'L', cNL] → ¬(k0 = x ∧ k1 = y) := by
  intro x y hxy
  rintro ⟨rfl, rfl⟩
  obtain ⟨u, v, huv⟩ := hxy
  simp only [List.mem_cons, List.not_mem_nil] at hb
  rcases u with _ | ⟨u1, _ | ⟨u2, _ | ⟨u3, _ | ⟨u4, _ | ⟨u5, _ | ⟨u6, _ | ⟨u7, ur⟩⟩⟩⟩⟩⟩⟩ <;>
    simp_all [List.append_eq_cons]

theorem stripSqlFence_preserves (k0 k1 : Char) (kr : List Char)
    (hb : ¬ cBT ∈ (k0 :: k1 :: kr))
    (h0q : k0 ≠ 'Q') (h0l : k0 ≠ 'L') (h0n : k0 ≠ cNL) (hsq : k0 = 'S' → k1 ≠ 'Q') :
    ∀ (n : Nat) (l : List Char), l.length ≤ n →
      (k0 :: k1 :: kr) <:+: l.map Char.toUpper →
      (k0 :: k1 :: kr) <:+: (stripSqlFence l).map Char.toUpper := by
  have hb2 : ¬ cBT ∈ (k0 :: k1 :: ([] : List Char)) := by
    intro hmem
    apply hb
    simp only [List.mem_cons, List.not_mem_nil, or_false] at hmem ⊢
    tauto
  intro n
  induction n with
  | zero =>
    intro l hl hinf
    have : l = [] := List.length_eq_zero.mp (Nat.le_zero.mp hl)
    subst this
    simpa using hinf
  | succ n ih =>
    intro l hl hinf
    cases l with
    | nil => simpa using hinf
    | cons c m =>
      by_cases hc : ((c :: m).take 6).map Char.toUpper = [cBT, cBT, cBT, 'S', 'Q', 'L']
      · rcases m with _ | ⟨c2, _ | ⟨c3, _ | ⟨c4, _ | ⟨c5, _ | ⟨c6, rest⟩⟩⟩⟩⟩ <;>
          (try (exfalso; simp [List.take] at hc; done))
        have htpl : (c :: c2 :: c3 :: c4 :: c5 :: [c6]).map Char.toUpper =
            [cBT, cBT, cBT, 'S', 'Q', 'L'] := by simpa [List.take] using hc
        have hmap : (c :: c2 :: c3 :: c4 :: c5 :: c6 :: rest).map Char.toUpper =
            [cBT, cBT, cBT, 'S', 'Q', 'L'] ++ rest.map Char.toUpper := by
          rw [show (c :: c2 :: c3 :: c4 :: c5 :: c6 :: rest) =
            (c :: c2 :: c3 :: c4 :: c5 :: [c6]) ++ rest from rfl, List.map_append, htpl]
        rw [hmap] at hinf
        rcases rest with _ | ⟨d, rest2⟩
        · exfalso
          have := seg_shift k0 k1 kr _ _
            (fence_window6 k0 k1 hb2 h0q h0l hsq)
            (fun x hx => by
              have hx2 : 'L' = x := by simpa using hx
              cases hx2; exact h0l) hinf
          simpa using this
        · by_cases hd : d = cNL
          · subst hd
            rw [stripSqlFence_chunk_nl c c2 c3 c4 c5 c6 rest2 htpl]
            have hmap2 : ([cBT, cBT, cBT, 'S', 'Q', 'L'] ++
                (cNL :: rest2).map Char.toUpper) =
                [cBT, cBT, cBT, 'S', 'Q', 'L', cNL] ++ rest2.map Char.toUpper := by
              simp [show Char.toUpper cNL = cNL from by decide]
            rw [hmap2] at hinf
            have hinf2 := seg_shift k0 k1 kr _ _
              (fence_window7 k0 k1 hb2 h0q h0l h0n hsq)
              (fun x hx => by
                have hx2 : cNL = x := by simpa using hx
                cases hx2; exact h0n) hinf
            apply ih rest2 _ hinf2
            simp only [List.length_cons] at hl
            omega
          · rw [stripSqlFence_chunk_other c c2 c3 c4 c5 c6 d rest2 htpl hd]
            have hinf2 := seg_shift k0 k1 kr _ _
              (fence_window6 k0 k1 hb2 h0q h0l hsq)
              (fun x hx => by
                have hx2 : 'L' = x := by simpa using hx
                cases hx2; exact h0l) hinf
            apply ih (d :: rest2) _ hinf2
            simp only [List.length_cons] at hl ⊢
            omega
      · rw [stripSqlFence_keep c m hc]
        obtain ⟨u, v, huv⟩ := hinf
        cases u with
        | nil =>
          rw [List.nil_append] at huv
          obtain ⟨occ, suffix, heq, hocc, _⟩ := map_eq_append_split
            (l := c :: m) (a := k0 :: k1 :: kr) (b := v) huv.symm
          have hocc_bt : ∀ x ∈ occ, Char.toUpper x ≠ cBT := by
            intro x hx hcontra
            apply hb
            rw [← hocc, ← hcontra]
            exact List.mem_map_of_mem Char.toUpper hx
          have hstrip : stripSqlFence (c :: m) = occ ++ stripSqlFence suffix := by
            rw [heq]
            exact stripSqlFence_append occ suffix hocc_bt
          rw [← stripSqlFence_keep c m hc, hstrip, List.map_append, hocc]
          exact ⟨[], (stripSqlFence suffix).map Char.toUpper, rfl⟩
        | cons a u2 =>
          have hm : (k0 :: k1 :: kr) <:+: m.map Char.toUpper := by
            rw [List.map_cons] at huv
            rw [List.cons_append] at huv
            exact ⟨u2, v, (List.cons.injEq _ _ _ _).mp huv |>.2⟩
          have hres := ih m (by simpa using Nat.le_of_succ_le_succ hl) hm
          rw [List.map_cons]
          obtain ⟨p, q, hpq⟩ := hres
          exact ⟨Char.toUpper c :: p, q, by rw [← hpq]; rfl⟩

theorem stripTicks_keep (c : Char) (m : List Char)
    (h : ¬ ((c :: m).take 3 = [cBT, cBT, cBT])) :
    stripTicks (c :: m) = c :: stripTicks m := by
  rcases m with _ | ⟨c2, _ | ⟨c3, rest⟩⟩
  · rfl
  · rfl
  · have h2 : ¬ (c :: c2 :: [c3] = [cBT, cBT, cBT]) := by
      simpa [List.take] using h
    rcases rest with _ | ⟨d, rest2⟩
    · rw [stripTicks.eq_1, if_neg h2]
    · rw [stripTicks.eq_2, if_neg h2]

theorem stripTicks_chunk_nil (c1 c2 c3 : Char)
    (h : c1 :: c2 :: [c3] = [cBT, cBT, cBT]) :
    stripTicks [c1, c2, c3] = [] := by
  rw [stripTicks.eq_1, if_pos h]

theorem stripTicks_chunk_nl (c1 c2 c3 : Char) (rest2 : List Char)
    (h : c1 :: c2 :: [c3] = [cBT, cBT, cBT]) :
    stripTicks (c1 :: c2 :: c3 :: cNL :: rest2) = stripTicks rest2 := by
  rw [stripTicks.eq_2, if_pos h]
  simp

theorem stripTicks_chunk_other (c1 c2 c3 d : Char) (rest2 : List Char)
    (h : c1 :: c2 :: [c3] = [cBT, cBT, cBT]) (hd : ¬ d = cNL) :
    stripTicks (c1 :: c2 :: c3 :: d :: rest2) = stripTicks (d :: rest2) := by
  rw [stripTicks.eq_2, if_pos h]
  simp [hd]

theorem stripTicks_append (a : List Char) :
    ∀ b, (∀ x ∈ a, x ≠ cBT) → stripTicks (a ++ b) = a ++ stripTicks b := by
  induction a with
  | nil => intro b _; rfl
  | cons c a2 ih =>
    intro b hx
    have hkeep : ¬ ((c :: (a2 ++ b)).take 3 = [cBT, cBT, cBT]) := by
      intro hcontra
      have hc1 : c = cBT := by
        cases h3 : (a2 ++ b) with
        | nil => simp [h3, List.take] at hcontra
        | cons z zs =>
          rw [h3] at hcontra
          rcases zs with _ | ⟨z2, zr⟩ <;> simp [List.take] at hcontra <;>
            exact hcontra.1
      exact hx c (List.mem_cons_self c a2) hc1
    rw [List.cons_append, stripTicks_keep _ _ hkeep,
      ih b (fun x hx2 => hx x (List.mem_cons_of_mem c hx2))]
    rfl

theorem ticks_window3 (k0 k1 : Char) (hb : ¬ cBT ∈ (k0 :: k1 :: ([] : List Char))) :
    ∀ x y, [x, y] <:+: [cBT, cBT, cBT] → ¬(k0 = x ∧ k1 = y) := by
  intro x y hxy
  rintro ⟨rfl, rfl⟩
  obtain ⟨u, v, huv⟩ := hxy
  simp only [List.mem_cons, List.not_mem_nil] at hb
  rcases u with _ | ⟨u1, _ | ⟨u2, _ | ⟨u3, ur⟩⟩⟩ <;>
    simp_all [List.append_eq_cons]

theorem ticks_window4 (k0 k1 : Char) (hb : ¬ cBT ∈ (k0 :: k1 :: ([] : List Char)))
    (h0n : k0 ≠ cNL) :
    ∀ x y, [x, y] <:+: [cBT, cBT, cBT, cNL] → ¬(k0 = x ∧ k1 = y) := by
  intro x y hxy
  rintro ⟨rfl, rfl⟩
  obtain ⟨u, v, huv⟩ := hxy
  simp only [List.mem_cons, List.not_mem_nil] at hb
  rcases u with _ | ⟨u1, _ | ⟨u2, _ | ⟨u3, _ | ⟨u4, ur⟩⟩⟩⟩ <;>
    simp_all [List.append_eq_cons]

theorem stripTicks_preserves (k0 k1 : Char) (kr : List Char)
    (hb : ¬ cBT ∈ (k0 :: k1 :: kr)) (h0n : k0 ≠ cNL) :
    ∀ (n : Nat) (l : List Char), l.length ≤ n →
      (k0 :: k1 :: kr) <:+: l.map Char.toUpper →
      (k0 :: k1 :: kr) <:+: (stripTicks l).map Char.toUpper := by
  have hb2 : ¬ cBT ∈ (k0 :: k1 :: ([] : List Char)) := by
    intro hmem
    apply hb
    simp only [List.mem_cons, List.not_mem_nil, or_false] at hmem ⊢
    tauto
  intro n
  induction n with
  | zero =>
    intro l hl hinf
    have : l = [] := List.length_eq_zero.mp (Nat.le_zero.mp hl)
    subst this
    simpa using hinf
  | succ n ih =>
    intro l hl hinf
    cases l with
    | nil => simpa using hinf
    | cons c m =>
      by_cases hc : (c :: m).take 3 = [cBT, cBT, cBT]
      · rcases m with _ | ⟨c2, _ | ⟨c3, rest⟩⟩ <;>
          (try (exfalso; simp [List.take] at hc; done))
        have hchunk : c :: c2 :: [c3] = [cBT, cBT, cBT] := by
          simpa [List.take] using hc
        have hmap : (c :: c2 :: c3 :: rest).map Char.toUpper =
            [cBT, cBT, cBT] ++ rest.map Char.toUpper := by
          rw [show (c :: c2 :: c3 :: rest) = (c :: c2 :: [c3]) ++ rest from rfl,
            List.map_append, hchunk]
          simp [show Char.toUpper cBT = cBT from by decide]
        rw [hmap] at hinf
        rcases rest with _ | ⟨d, rest2⟩
        · exfalso
          have := seg_shift k0 k1 kr _ _
            (ticks_window3 k0 k1 hb2)
            (fun x hx => by
              have hx2 : cBT = x := by simpa using hx
              cases hx2
              intro hk
              exact hb2 (by simp [hk])) hinf
          simpa using this
        · by_cases hd : d = cNL
          · subst hd
            rw [stripTicks_chunk_nl c c2 c3 rest2 hchunk]
            have hmap2 : ([cBT, cBT, cBT] ++ (cNL :: rest2).map Char.toUpper) =
                [cBT, cBT, cBT, cNL] ++ rest2.map Char.toUpper := by
              simp [show Char.toUpper cNL = cNL from by decide]
            rw [hmap2] at hinf
            have hinf2 := seg_shift k0 k1 kr _ _
              (ticks_window4 k0 k1 hb2 h0n)
              (fun x hx => by
                have hx2 : cNL = x := by simpa using hx
                cases hx2; exact h0n) hinf
            apply ih rest2 _ hinf2
            simp only [List.length_cons] at hl
            omega
          · rw [stripTicks_chunk_other c c2 c3 d rest2 hchunk hd]
            have hinf2 := seg_shift k0 k1 kr _ _
              (ticks_window3 k0 k1 hb2)
              (fun x hx => by
                have hx2 : cBT = x := by simpa using hx
                cases hx2
                intro hk
                exact hb2 (by simp [hk])) hinf
            apply ih (d :: rest2) _ hinf2
            simp only [List.length_cons] at hl ⊢
            omega
      · rw [stripTicks_keep c m hc]
        obtain ⟨u, v, huv⟩ := hinf
        cases u with
        | nil =>
          rw [List.nil_append] at huv
          obtain ⟨occ, suffix, heq, hocc, _⟩ := map_eq_append_split
            (l := c :: m) (a := k0 :: k1 :: kr) (b := v) huv.symm
          have hocc_bt : ∀ x ∈ occ, x ≠ cBT := by
            intro x hx hcontra
            apply hb
            rw [← hocc]
            have : Char.toUpper x = cBT := by
              rw [hcontra]; decide
            rw [← this]
            exact List.mem_map_of_mem Char.toUpper hx
          have hstrip : stripTicks (c :: m) = occ ++ stripTicks suffix := by
            rw [heq]
            exact stripTicks_append occ suffix hocc_bt
          rw [← stripTicks_keep c m hc, hstrip, List.map_append, hocc]
          exact ⟨[], (stripTicks suffix).map Char.toUpper, rfl⟩
        | cons a u2 =>
          have hm : (k0 :: k1 :: kr) <:+: m.map Char.toUpper := by
            rw [List.map_cons, List.cons_append] at huv
            exact ⟨u2, v, (List.cons.injEq _ _ _ _).mp huv |>.2⟩
          have hres := ih m (by simpa using Nat.le_of_succ_le_succ hl) hm
          rw [List.map_cons]
          obtain ⟨p, q, hpq⟩ := hres
          exact ⟨Char.toUpper c :: p, q, by rw [← hpq]; rfl⟩

theorem rev_inf (a b : List Char) (h : a <:+: b) : a.reverse <:+: b.reverse := by
  obtain ⟨u, v, huv⟩ := h
  exact ⟨v.reverse, u.reverse, by rw [← huv]; simp⟩

theorem dropWhile_ws_preserves (kk : List Char) (hne : kk ≠ [])
    (hws : ∀ x ∈ kk, jsIsWs x = false) :
    ∀ (m : List Char), kk <:+: m.map Char.toUpper →
      kk <:+: (m.dropWhile jsIsWs).map Char.toUpper := by
  intro m
  induction m with
  | nil => intro h; simpa using h
  | cons c t ih =>
    intro hinf
    by_cases hc : jsIsWs c = true
    · rw [List.dropWhile_cons, if_pos hc]
      apply ih
      obtain ⟨u, v, huv⟩ := hinf
      cases u with
      | nil =>
        exfalso
        cases kk with
        | nil => exact hne rfl
        | cons k0 kt =>
          rw [List.nil_append, List.map_cons] at huv
          have h1 : k0 = Char.toUpper c := ((List.cons.injEq _ _ _ _).mp huv).1
          rw [ws_toUpper_fixed c hc] at h1
          have h2 := hws k0 (List.mem_cons_self k0 kt)
          rw [h1, hc] at h2
          cases h2
      | cons a u2 =>
        rw [List.map_cons, List.cons_append] at huv
        exact ⟨u2, v, ((List.cons.injEq _ _ _ _).mp huv).2⟩
    · rw [List.dropWhile_cons, if_neg hc]
      exact hinf

theorem trimJS_preserves (kk : List Char) (hne : kk ≠ [])
    (hws : ∀ x ∈ kk, jsIsWs x = false)
    (m : List Char) (h : kk <:+: m.map Char.toUpper) :
    kk <:+: (trimJS m).map Char.toUpper := by
  have h1 : kk <:+: (trimL m).map Char.toUpper :=
    dropWhile_ws_preserves kk hne hws m h
  have h2 : kk.reverse <:+: ((trimL m).reverse).map Char.toUpper := by
    have h2a := rev_inf _ _ h1
    rwa [← List.map_reverse] at h2a
  have h3 := dropWhile_ws_preserves kk.reverse
    (by simpa using hne)
    (fun x hx => hws x (List.mem_reverse.mp hx))
    ((trimL m).reverse) h2
  have h4 := rev_inf _ _ h3
  rw [List.reverse_reverse, ← List.map_reverse] at h4
  exact h4

theorem firstIdx_complete (kk : List Char) :
    ∀ hay, kk <:+: hay → ∃ i, firstIdx? kk hay = some i := by
  intro hay
  induction hay with
  | nil =>
    intro h
    have hk : kk = [] := by simpa using h
    subst hk
    exact ⟨0, rfl⟩
  | cons c t ih =>
    intro h
    by_cases hp : kk.isPrefixOf (c :: t)
    · exact ⟨0, by rw [firstIdx?, if_pos hp]⟩
    · obtain ⟨u, v, huv⟩ := h
      cases u with
      | nil =>
        exfalso
        apply hp
        rw [List.isPrefixOf_iff_prefix]
        exact ⟨v, by simpa using huv⟩
      | cons a u2 =>
        have ht : kk <:+: t :=
          ⟨u2, v, ((List.cons.injEq _ _ _ _).mp (by simpa using huv)).2⟩
        obtain ⟨i, hi⟩ := ih ht
        refine ⟨i + 1, ?_⟩
        rw [firstIdx?, if_neg hp]
        show (firstIdx? kk t).map (· + 1) = some (i + 1)
        rw [hi]
        rfl

theorem firstIdx_sound (kk : List Char) :
    ∀ (hay : List Char) (i : Nat), firstIdx? kk hay = some i →
      kk.isPrefixOf (hay.drop i) = true := by
  intro hay
  induction hay with
  | nil =>
    intro i h
    by_cases hp : kk.isPrefixOf ([] : List Char)
    · rw [firstIdx?, if_pos hp] at h
      injection h with h2
      subst h2
      exact hp
    · rw [firstIdx?, if_neg hp] at h
      cases h
  | cons c t ih =>
    intro i h
    by_cases hp : kk.isPrefixOf (c :: t)
    · rw [firstIdx?, if_pos hp] at h
      injection h with h2
      subst h2
      exact hp
    · rw [firstIdx?, if_neg hp] at h
      have h2 : (firstIdx? kk t).map (· + 1) = some i := h
      cases hf : firstIdx? kk t with
      | none => rw [hf] at h2; cases h2
      | some j =>
        rw [hf] at h2
        injection h2 with h3
        subst h3
        simpa [List.drop] using ih j hf

theorem dropWhile_append_last (p : Char → Bool) (c : Char) (hc : p c = false) :
    ∀ xs, ∃ ys, ((xs ++ [c]).dropWhile p) = ys ++ [c] := by
  intro xs
  induction xs with
  | nil => exact ⟨[], by simp [List.dropWhile_cons, hc]⟩
  | cons a xs2 ih =>
    by_cases ha : p a = true
    · obtain ⟨ys, hys⟩ := ih
      exact ⟨ys, by rw [List.cons_append, List.dropWhile_cons, if_pos ha]; exact hys⟩
    · exact ⟨a :: xs2, by rw [List.cons_append, List.dropWhile_cons, if_neg ha]⟩

theorem sts_trim_ne_nil (c : Char) (rest : List Char)
    (hws : jsIsWs c = false) (hsemi : (c == ';') = false) :
    trimJS (stripTrailingSemis (c :: rest)) ≠ [] := by
  obtain ⟨ys, hys⟩ := dropWhile_append_last (· == ';') c hsemi rest.reverse
  have hm2 : stripTrailingSemis (c :: rest) = c :: ys.reverse := by
    show ((c :: rest).reverse.dropWhile (· == ';')).reverse = c :: ys.reverse
    rw [List.reverse_cons, hys]
    simp
  rw [hm2]
  show trimR (trimL (c :: ys.reverse)) ≠ []
  have htl : trimL (c :: ys.reverse) = c :: ys.reverse := by
    show (c :: ys.reverse).dropWhile jsIsWs = c :: ys.reverse
    rw [List.dropWhile_cons, if_neg (by simp [hws])]
  rw [htl]
  show ((c :: ys.reverse).reverse.dropWhile jsIsWs).reverse ≠ []
  obtain ⟨zs, hzs⟩ := dropWhile_append_last jsIsWs c hws ys.reverse.reverse
  rw [List.reverse_cons, hzs]
  simp

theorem tryPatterns_ne_nil :
    ∀ (ps : List RE) (cleaned v : List Char),
      tryPatterns ps cleaned = some v → v ≠ [] := by
  intro ps
  induction ps with
  | nil => intro cleaned v h; cases h
  | cons p ps2 ih =>
    intro cleaned v h
    rw [tryPatterns] at h
    cases hm : reFirst p cleaned with
    | none => rw [hm] at h; exact ih cleaned v h
    | some m =>
      rw [hm] at h
      by_cases hg : (!(cleanupLoopSQL m.matched).isEmpty &&
          reTestAt startKwRE (cleanupLoopSQL m.matched)) = true
      · have h2 : some (cleanupLoopSQL m.matched) = some v := by
          rw [← h]
          show _ = if !(cleanupLoopSQL m.matched).isEmpty &&
              reTestAt startKwRE (cleanupLoopSQL m.matched) then
            some (cleanupLoopSQL m.matched) else tryPatterns ps2 cleaned
          rw [if_pos hg]
        injection h2 with h3
        subst h3
        intro hnil
        rw [hnil] at hg
        simp at hg
      · have h2 : tryPatterns ps2 cleaned = some v := by
          rw [← h]
          show _ = if !(cleanupLoopSQL m.matched).isEmpty &&
              reTestAt startKwRE (cleanupLoopSQL m.matched) then
            some (cleanupLoopSQL m.matched) else tryPatterns ps2 cleaned
          rw [if_neg hg]
        exact ih cleaned v h2

theorem isEmpty_false_of_ne_nil {l : List Char} (h : l ≠ []) : l.isEmpty = false := by
  cases l with
  | nil => exact absurd rfl h
  | cons a t => rfl

theorem kwScan_ne_nil :
    ∀ (ks : List (List Char)) (cleaned v : List Char),
      kwScan ks cleaned = some v → v ≠ [] := by
  intro ks
  induction ks with
  | nil => intro cleaned v h; cases h
  | cons kw ks2 ih =>
    intro cleaned v h
    rw [kwScan] at h
    cases hfi : firstIdx? kw (cleaned.map Char.toUpper) with
    | none => rw [hfi] at h; exact ih cleaned v h
    | some i =>
      rw [hfi] at h
      by_cases hg : (!(trimJS (stripTrailingSemis (cleaned.drop i))).isEmpty) = true
      · have h2 : some (trimJS (stripTrailingSemis (cleaned.drop i))) = some v := by
          rw [← h]
          show _ = if !(trimJS (stripTrailingSemis (cleaned.drop i))).isEmpty then
            some (trimJS (stripTrailingSemis (cleaned.drop i))) else kwScan ks2 cleaned
          rw [if_pos hg]
        injection h2 with h3
        subst h3
        intro hnil
        rw [hnil] at hg
        simp at hg
      · have h2 : kwScan ks2 cleaned = some v := by
          rw [← h]
          show _ = if !(trimJS (stripTrailingSemis (cleaned.drop i))).isEmpty then
            some (trimJS (stripTrailingSemis (cleaned.drop i))) else kwScan ks2 cleaned
          rw [if_neg hg]
        exact ih cleaned v h2

theorem kwScan_complete :
    ∀ (kws : List (List Char)) (cleaned : List Char),
      (∀ kw ∈ kws, ∃ K0 kt, kw = K0 :: kt ∧ jsIsWs K0 = false ∧ (K0 == ';') = false) →
      (∃ kw ∈ kws, kw <:+: cleaned.map Char.toUpper) →
      ∃ v, kwScan kws cleaned = some v := by
  intro kws
  induction kws with
  | nil =>
    intro cleaned _ hex
    obtain ⟨kw, hmem, _⟩ := hex
    simp at hmem
  | cons kw1 ks ih =>
    intro cleaned hconds hex
    cases hfi : firstIdx? kw1 (cleaned.map Char.toUpper) with
    | some i =>
      have hpre := firstIdx_sound kw1 _ i hfi
      obtain ⟨K0, kt, hkw, hK0ws, hK0s⟩ := hconds kw1 (List.mem_cons_self kw1 ks)
      rw [hkw, ← List.map_drop] at hpre
      cases hdrop : cleaned.drop i with
      | nil => rw [hdrop] at hpre; cases hpre
      | cons c rest2 =>
        rw [hdrop, List.map_cons] at hpre
        have hhead : K0 = Char.toUpper c := by
          rw [List.isPrefixOf_iff_prefix] at hpre
          exact (List.cons_prefix_cons.mp hpre).1
        have hcws : jsIsWs c = false := by
          by_cases hw : jsIsWs c = true
          · rw [ws_toUpper_fixed c hw] at hhead
            rw [hhead] at hK0ws
            rw [hK0ws] at hw
            cases hw
          · simpa using hw
        have hcsemi : (c == ';') = false := by
          by_cases hsc : c = ';'
          · exfalso
            rw [hsc] at hhead
            have : K0 = ';' := by
              rw [hhead]; decide
            rw [this] at hK0s
            simp at hK0s
          · simpa using hsc
        have hne2 := sts_trim_ne_nil c rest2 hcws hcsemi
        rw [← hdrop] at hne2
        have hguard : (!(trimJS (stripTrailingSemis (cleaned.drop i))).isEmpty) = true := by
          rw [isEmpty_false_of_ne_nil hne2]
          rfl
        refine ⟨trimJS (stripTrailingSemis (cleaned.drop i)), ?_⟩
        rw [kwScan, hfi]
        show (if !(trimJS (stripTrailingSemis (cleaned.drop i))).isEmpty then
          some (trimJS (stripTrailingSemis (cleaned.drop i))) else kwScan ks cleaned) = _
        rw [if_pos hguard]
    | none =>
      obtain ⟨kw, hmem, hinf⟩ := hex
      rcases List.mem_cons.mp hmem with rfl | hmem2
      · obtain ⟨i, hi⟩ := firstIdx_complete kw _ hinf
        rw [hfi] at hi
        cases hi
      · obtain ⟨v, hv⟩ := ih cleaned
          (fun kw2 h2 => hconds kw2 (List.mem_cons_of_mem _ h2)) ⟨kw, hmem2, hinf⟩
        refine ⟨v, ?_⟩
        rw [kwScan, hfi]
        exact hv

/-- C8: `extractCleanSQL` is a total function of the raw text (totality is
inherent in the embedding: every branch of the source, including the pattern
loop and the keyword fallback, is a terminating computation), and for every
non-empty input that contains one of the four statement keywords
SELECT/INSERT/UPDATE/DELETE anywhere, in any letter case, the extracted
statement is non-empty. -/
theorem extractCleanSQLNonEmpty (s : List Char) (h1 : s ≠ [])
    (h2 : ∃ kw ∈ sqlKeywordsU, kw <:+: s.map Char.toUpper) :
    extractCleanSQL s ≠ [] := by
  obtain ⟨kw, hmem, hinf⟩ := h2
  have hkcases : kw = str "SELECT" ∨ kw = str "INSERT" ∨ kw = str "UPDATE" ∨
      kw = str "DELETE" := by
    simpa [sqlKeywordsU] using hmem
  have hclean : kw <:+: (trimJS (stripTicks (stripSqlFence s))).map Char.toUpper := by
    rcases hkcases with rfl | rfl | rfl | rfl
    · exact trimJS_preserves _ (by decide) (by decide) _
        (stripTicks_preserves 'S' 'E' ['L', 'E', 'C', 'T'] (by decide) (by decide)
          (stripSqlFence s).length _ (le_refl _)
          (stripSqlFence_preserves 'S' 'E' ['L', 'E', 'C', 'T'] (by decide) (by decide)
            (by decide) (by decide) (by decide) s.length s (le_refl _) hinf))
    · exact trimJS_preserves _ (by decide) (by decide) _
        (stripTicks_preserves 'I' 'N' ['S', 'E', 'R', 'T'] (by decide) (by decide)
          (stripSqlFence s).length _ (le_refl _)
          (stripSqlFence_preserves 'I' 'N' ['S', 'E', 'R', 'T'] (by decide) (by decide)
            (by decide) (by decide) (by decide) s.length s (le_refl _) hinf))
    · exact trimJS_preserves _ (by decide) (by decide) _
        (stripTicks_preserves 'U' 'P' ['D', 'A', 'T', 'E'] (by decide) (by decide)
          (stripSqlFence s).length _ (le_refl _)
          (stripSqlFence_preserves 'U' 'P' ['D', 'A', 'T', 'E'] (by decide) (by decide)
            (by decide) (by decide) (by decide) s.length s (le_refl _) hinf))
    · exact trimJS_preserves _ (by decide) (by decide) _
        (stripTicks_preserves 'D' 'E' ['L', 'E', 'T', 'E'] (by decide) (by decide)
          (stripSqlFence s).length _ (le_refl _)
          (stripSqlFence_preserves 'D' 'E' ['L', 'E', 'T', 'E'] (by decide) (by decide)
            (by decide) (by decide) (by decide) s.length s (le_refl _) hinf))
  show (match tryPatterns [sqlTextPat1, sqlTextPat2, sqlTextPat3]
      (trimJS (stripTicks (stripSqlFence s))) with
    | some sql => sql
    | none =>
      match kwScan sqlKeywordsU (trimJS (stripTicks (stripSqlFence s))) with
      | some extracted => extracted
      | none =>
        trimJS (stripTrailingSemis (trimJS (stripTicks (stripSqlFence s))))) ≠ []
  cases htp : tryPatterns [sqlTextPat1, sqlTextPat2, sqlTextPat3]
      (trimJS (stripTicks (stripSqlFence s))) with
  | some sql => simpa using tryPatterns_ne_nil _ _ _ htp
  | none =>
    obtain ⟨v, hv⟩ := kwScan_complete sqlKeywordsU
      (trimJS (stripTicks (stripSqlFence s)))
      (by
        intro kw2 hm2
        rcases (by simpa [sqlKeywordsU] using hm2 :
            kw2 = str "SELECT" ∨ kw2 = str "INSERT" ∨ kw2 = str "UPDATE" ∨
              kw2 = str "DELETE") with rfl | rfl | rfl | rfl
        · exact ⟨'S', str "ELECT", rfl, by decide, by decide⟩
        · exact ⟨'I', str "NSERT", rfl, by decide, by decide⟩
        · exact ⟨'U', str "PDATE", rfl, by decide, by decide⟩
        · exact ⟨'D', str "ELETE", rfl, by decide, by decide⟩)
      ⟨kw, hmem, hclean⟩
    rw [hv]
    simpa using kwScan_ne_nil _ _ _ hv

/-- Witness for C8: a chatty reply containing a SELECT statement yields a
non-empty extraction. -/
theorem extractCleanSQLNonEmpty_witness :
    extractCleanSQL (str "Here is the query: select * from todos;") ≠ [] :=
  extractCleanSQLNonEmpty (str "Here is the query: select * from todos;")
    (by decide) ⟨str "SELECT", by decide, by decide⟩

/-! ## Claim C10: the Repairer's quote escaping defeats the INSERT parser -/

theorem mrun_peel {r : RE} {s : List Char} {g : Caps}
    {k : List Char → Caps → Option (List Char × Caps)} {res : List Char × Caps}
    (h : mrun r s g k = some res) :
    ∃ pre s1 g1, s = pre ++ s1 ∧ k s1 g1 = some res := by
  obtain ⟨s1, g1, hs1, hk, _⟩ := mrun_inv 0 r s g k res h
  obtain ⟨pre, hpre⟩ := hs1
  exact ⟨pre, s1, g1, hpre.symm, hk⟩

theorem mrun_char_peel {c : Char} {s : List Char} {g : Caps}
    {k : List Char → Caps → Option (List Char × Caps)} {res : List Char × Caps}
    (h : mrun (reChar c) s g k = some res) :
    ∃ s1, s = c :: s1 ∧ k s1 g = some res := by
  cases s with
  | nil => simp [mrun, reChar] at h
  | cons a t =>
    simp only [mrun, reChar] at h
    by_cases hp : (a == c) = true
    · rw [if_pos hp] at h
      exact ⟨t, by rw [(eq_of_beq hp : a = c)], h⟩
    · rw [if_neg hp] at h
      cases h

theorem tryDrops_some_mem {s : List Char} {g : Caps}
    {k : List Char → Caps → Option (List Char × Caps)} {il : List Nat}
    {res : List Char × Caps} (h : tryDrops s g k il = some res) :
    ∃ i ∈ il, k (s.drop i) g = some res := by
  induction il with
  | nil => simp [tryDrops] at h
  | cons i is ih =>
    simp only [tryDrops] at h
    cases hk : k (s.drop i) g with
    | some r =>
      rw [hk] at h
      exact ⟨i, List.mem_cons_self i is, by rw [hk]; exact h⟩
    | none =>
      rw [hk] at h
      obtain ⟨j, hj, hkj⟩ := ih h
      exact ⟨j, List.mem_cons_of_mem i hj, hkj⟩

theorem countChoices_mem {min1 greedy : Bool} {n i : Nat}
    (h : i ∈ countChoices min1 greedy n) : (min1 = true → 1 ≤ i) ∧ i ≤ n := by
  simp only [countChoices] at h
  have h2 : i ∈ List.range' (if min1 then 1 else 0)
      (n + 1 - (if min1 then 1 else 0)) := by
    by_cases hg : greedy
    · rw [if_pos hg] at h
      exact List.mem_reverse.mp h
    · rw [if_neg hg] at h
      exact h
  rw [List.mem_range'_1] at h2
  by_cases hm : min1
  · rw [if_pos hm] at h2
    exact ⟨fun _ => h2.1, by omega⟩
  · rw [if_neg hm] at h2
    exact ⟨fun hcon => absurd hcon hm, by omega⟩

theorem mrun_many_peel {p : Char → Bool} {min1 greedy : Bool} {s : List Char}
    {g : Caps} {k : List Char → Caps → Option (List Char × Caps)}
    {res : List Char × Caps}
    (h : mrun (.many p min1 greedy) s g k = some res) :
    ∃ a s1, s = a ++ s1 ∧ (∀ c ∈ a, p c = true) ∧ (min1 = true → a ≠ []) ∧
      k s1 g = some res := by
  simp only [mrun] at h
  obtain ⟨i, hmem, hk⟩ := tryDrops_some_mem h
  obtain ⟨hmin, hle⟩ := countChoices_mem hmem
  refine ⟨s.take i, s.drop i, (List.take_append_drop i s).symm, ?_, ?_, hk⟩
  · intro c hc
    obtain ⟨rest, hrest⟩ := List.takeWhile_prefix (l := s) p
    have h3 : s.take i = (s.takeWhile p).take i := by
      conv_lhs => rw [← hrest]
      exact List.take_append_of_le_length hle
    have h4 : c ∈ s.takeWhile p := List.take_subset i _ (h3 ▸ hc)
    exact List.mem_takeWhile_imp h4
  · intro hm1
    have h1i := hmin hm1
    have hlen : 0 < (s.take i).length := by
      rw [List.length_take]
      have h5 : (s.takeWhile p).length ≤ s.length :=
        (List.takeWhile_prefix p).length_le
      omega
    exact List.ne_nil_of_length_pos hlen

theorem mrun_grp_many_peel {i : Nat} {p : Char → Bool} {min1 greedy : Bool}
    {s : List Char} {g : Caps}
    {k : List Char → Caps → Option (List Char × Caps)} {res : List Char × Caps}
    (h : mrun (.grp i (.many p min1 greedy)) s g k = some res) :
    ∃ a s1 g1, s = a ++ s1 ∧ (∀ c ∈ a, p c = true) ∧ (min1 = true → a ≠ []) ∧
      k s1 g1 = some res := by
  have h2 : mrun (.many p min1 greedy) s g
      (fun s1 g1 => k s1 ((i, s.take (s.length - s1.length)) :: g1)) = some res := h
  obtain ⟨a, s1, he, hp2, hne, hk⟩ := mrun_many_peel h2
  exact ⟨a, s1, (i, s.take (s.length - s1.length)) :: g, he, hp2, hne, hk⟩

theorem mem_of_getLast?_eq (l : List Char) (a : Char) : l.getLast? = some a → a ∈ l := by
  induction l with
  | nil => intro h; cases h
  | cons c t ih =>
    intro h
    cases t with
    | nil =>
      simp [List.getLast?] at h
      simp [h]
    | cons b t2 =>
      rw [List.getLast?_cons_cons] at h
      exact List.mem_cons_of_mem c (ih h)

theorem escapeSQ_mem_quote : ∀ t : List Char, cSQ ∈ t → cSQ ∈ escapeSQ t := by
  intro t
  induction t with
  | nil => intro h; simp at h
  | cons c t2 ih =>
    intro h
    by_cases hc : (c == cSQ) = true
    · rw [show escapeSQ (c :: t2) = cSQ :: cSQ :: escapeSQ t2 from by
        simp only [escapeSQ]; rw [if_pos hc]]
      exact List.mem_cons_self _ _
    · rw [show escapeSQ (c :: t2) = c :: escapeSQ t2 from by
        simp only [escapeSQ]; rw [if_neg hc]]
      rcases List.mem_cons.mp h with h2 | h2
      · exfalso
        rw [h2] at hc
        simp at hc
      · exact List.mem_cons_of_mem c (ih h2)

theorem escapeSQ_adj : ∀ (t u v : List Char), escapeSQ t = u ++ cSQ :: v →
    u.getLast? = some cSQ ∨ v.head? = some cSQ := by
  intro t
  induction t with
  | nil =>
    intro u v h
    exfalso
    have h2 := congrArg List.length h
    simp [escapeSQ] at h2
    omega
  | cons c t2 ih =>
    intro u v h
    by_cases hc : (c == cSQ) = true
    · rw [show escapeSQ (c :: t2) = cSQ :: cSQ :: escapeSQ t2 from by
        simp only [escapeSQ]; rw [if_pos hc]] at h
      rcases u with _ | ⟨a, _ | ⟨b, u2⟩⟩
      · right
        have h2 : cSQ :: escapeSQ t2 = v := by simpa using h
        rw [← h2]
        rfl
      · left
        simp only [List.cons_append, List.nil_append, List.cons.injEq] at h
        cases h.1
        rfl
      · simp only [List.cons_append, List.cons.injEq] at h
        obtain ⟨ha, hb, he⟩ := h
        rcases ih u2 v he with hl | hr
        · left
          cases u2 with
          | nil => cases hl
          | cons x u3 =>
            rw [List.getLast?_cons_cons, List.getLast?_cons_cons]
            exact hl
        · right
          exact hr
    · rw [show escapeSQ (c :: t2) = c :: escapeSQ t2 from by
        simp only [escapeSQ]; rw [if_neg hc]] at h
      rcases u with _ | ⟨a, u2⟩
      · exfalso
        have hce := ((List.cons.injEq _ _ _ _).mp (by simpa using h)).1
        rw [hce] at hc
        simp at hc
      · simp only [List.cons_append, List.cons.injEq] at h
        obtain ⟨ha, he⟩ := h
        rcases ih u2 v he with hl | hr
        · left
          cases u2 with
          | nil => cases hl
          | cons x u3 =>
            rw [List.getLast?_cons_cons]
            exact hl
        · right
          exact hr

theorem quote_align : ∀ (A x R1 R2 : List Char), cSQ ∉ A →
    x ++ cSQ :: R1 = A ++ cSQ :: R2 →
    (x = A ∧ R1 = R2) ∨ (∃ m, x = A ++ cSQ :: m ∧ m ++ cSQ :: R1 = R2) := by
  intro A
  induction A with
  | nil =>
    intro x R1 R2 _ h
    cases x with
    | nil =>
      left
      exact ⟨rfl, by simpa using h⟩
    | cons c x2 =>
      right
      simp only [List.cons_append, List.nil_append, List.cons.injEq] at h
      obtain ⟨hc, he⟩ := h
      exact ⟨x2, by rw [hc]; rfl, he⟩
  | cons a A2 ih =>
    intro x R1 R2 hA h
    have haq : ¬ (a = cSQ) := by
      intro hcon
      apply hA
      rw [hcon]
      exact List.mem_cons_self _ _
    cases x with
    | nil =>
      exfalso
      simp only [List.nil_append, List.cons_append, List.cons.injEq] at h
      exact haq h.1.symm
    | cons c x2 =>
      simp only [List.cons_append, List.cons.injEq] at h
      obtain ⟨hca, he⟩ := h
      have hA2 : cSQ ∉ A2 := fun hcon => hA (List.mem_cons_of_mem a hcon)
      rcases ih x2 R1 R2 hA2 he with ⟨h1, h2⟩ | ⟨m, hm1, hm2⟩
      · left
        exact ⟨by rw [hca, h1], h2⟩
      · right
        exact ⟨m, by rw [hca, hm1]; rfl, hm2⟩

theorem locate_after : ∀ (m E R1 B : List Char), cSQ ∉ B →
    m ++ cSQ :: R1 = E ++ cSQ :: B →
    (∃ v, E = m ++ cSQ :: v ∧ R1 = v ++ cSQ :: B) ∨ (m = E ∧ R1 = B) := by
  intro m
  induction m with
  | nil =>
    intro E R1 B hB h
    cases E with
    | nil =>
      right
      exact ⟨rfl, by simpa using h⟩
    | cons e E2 =>
      left
      simp only [List.nil_append, List.cons_append, List.cons.injEq] at h
      obtain ⟨he, h2⟩ := h
      exact ⟨E2, by rw [← he]; rfl, h2⟩
  | cons c m2 ih =>
    intro E R1 B hB h
    cases E with
    | nil =>
      exfalso
      simp only [List.cons_append, List.nil_append, List.cons.injEq] at h
      apply hB
      rw [← h.2]
      exact List.mem_append_right m2 (List.mem_cons_self _ _)
    | cons e E2 =>
      simp only [List.cons_append, List.cons.injEq] at h
      obtain ⟨hce, h2⟩ := h
      rcases ih E2 R1 B hB h2 with ⟨v, hv1, hv2⟩ | ⟨h3, h4⟩
      · left
        exact ⟨v, by rw [← hce, hv1]; rfl, hv2⟩
      · right
        exact ⟨by rw [hce, h3], h4⟩

theorem insertParse_shape (u : List Char) (res : List Char × Caps)
    (h : matchAt insertParseRE u = some res) :
    ∃ x2 w0 T w y,
      u = x2 ++ '(' :: (w0 ++ cSQ :: (T ++ cSQ :: (w ++ ',' :: y))) ∧
      (∀ c ∈ w0, jsIsWs c = true) ∧ T ≠ [] ∧ (∀ c ∈ T, ¬ c = cSQ) ∧
      (∀ c ∈ w, jsIsWs c = true) := by
  have h1 : mrun (reSeqs [reStrCI (str "INSERT INTO todos"), ws0, reChar '(',
      .many (clsNot [')']) true true, reChar ')', ws0, reStrCI (str "VALUES"), ws0])
      u []
      (fun sa ga => mrun (reSeqs [reChar '(', ws0, reChar cSQ,
        .grp 1 (.many (clsNot [cSQ]) true true), reChar cSQ, ws0, reChar ',', ws0,
        .grp 2 (.alt (reStrCI (str "true")) (reStrCI (str "false"))), ws0,
        reChar ')']) sa ga (fun sz gz => some (sz, gz))) = some res := h
  obtain ⟨x1, s9, g9, hu, hc9⟩ := mrun_peel h1
  have h9 : mrun (reChar '(') s9 g9
      (fun sa ga => mrun (reSeqs [ws0, reChar cSQ,
        .grp 1 (.many (clsNot [cSQ]) true true), reChar cSQ, ws0, reChar ',', ws0,
        .grp 2 (.alt (reStrCI (str "true")) (reStrCI (str "false"))), ws0,
        reChar ')']) sa ga (fun sz gz => some (sz, gz))) = some res := hc9
  obtain ⟨s10, hs9, hc10⟩ := mrun_char_peel h9
  have h10 : mrun (.many jsIsWs false true) s10 g9
      (fun sa ga => mrun (reSeqs [reChar cSQ,
        .grp 1 (.many (clsNot [cSQ]) true true), reChar cSQ, ws0, reChar ',', ws0,
        .grp 2 (.alt (reStrCI (str "true")) (reStrCI (str "false"))), ws0,
        reChar ')']) sa ga (fun sz gz => some (sz, gz))) = some res := hc10
  obtain ⟨w0, s11, hs10, hw0, _, hc11⟩ := mrun_many_peel h10
  have h11 : mrun (reChar cSQ) s11 g9
      (fun sa ga => mrun (reSeqs [.grp 1 (.many (clsNot [cSQ]) true true),
        reChar cSQ, ws0, reChar ',', ws0,
        .grp 2 (.alt (reStrCI (str "true")) (reStrCI (str "false"))), ws0,
        reChar ')']) sa ga (fun sz gz => some (sz, gz))) = some res := hc11
  obtain ⟨s12, hs11, hc12⟩ := mrun_char_peel h11
  have h12 : mrun (.grp 1 (.many (clsNot [cSQ]) true true)) s12 g9
      (fun sa ga => mrun (reSeqs [reChar cSQ, ws0, reChar ',', ws0,
        .grp 2 (.alt (reStrCI (str "true")) (reStrCI (str "false"))), ws0,
        reChar ')']) sa ga (fun sz gz => some (sz, gz))) = some res := hc12
  obtain ⟨T, s13, g13, hs12, hT, hTne, hc13⟩ := mrun_grp_many_peel h12
  have h13 : mrun (reChar cSQ) s13 g13
      (fun sa ga => mrun (reSeqs [ws0, reChar ',', ws0,
        .grp 2 (.alt (reStrCI (str "true")) (reStrCI (str "false"))), ws0,
        reChar ')']) sa ga (fun sz gz => some (sz, gz))) = some res := hc13
  obtain ⟨s14, hs13, hc14⟩ := mrun_char_peel h13
  have h14 : mrun (.many jsIsWs false true) s14 g13
      (fun sa ga => mrun (reSeqs [reChar ',', ws0,
        .grp 2 (.alt (reStrCI (str "true")) (reStrCI (str "false"))), ws0,
        reChar ')']) sa ga (fun sz gz => some (sz, gz))) = some res := hc14
  obtain ⟨w, s15, hs14, hw, _, hc15⟩ := mrun_many_peel h14
  have h15 : mrun (reChar ',') s15 g13
      (fun sa ga => mrun (reSeqs [ws0,
        .grp 2 (.alt (reStrCI (str "true")) (reStrCI (str "false"))), ws0,
        reChar ')']) sa ga (fun sz gz => some (sz, gz))) = some res := hc15
  obtain ⟨s16, hs15, _⟩ := mrun_char_peel h15
  refine ⟨x1, w0, T, w, s16, ?_, hw0, hTne rfl, ?_, hw⟩
  · rw [hu, hs9, hs10, hs11, hs12, hs13, hs14, hs15]
  · intro c hc hceq
    have h2 := hT c hc
    rw [hceq] at h2
    exact absurd h2 (by decide)

theorem no_match_shape (s0 A B E : List Char) (hA : cSQ ∉ A) (hB : cSQ ∉ B)
    (hE : cSQ ∈ E)
    (hadj : ∀ u v, E = u ++ cSQ :: v → u.getLast? = some cSQ ∨ v.head? = some cSQ)
    (hs0 : s0 = A ++ cSQ :: (E ++ cSQ :: B)) :
    ∀ (x2 w0 T w y : List Char),
      s0 = x2 ++ '(' :: (w0 ++ cSQ :: (T ++ cSQ :: (w ++ ',' :: y))) →
      (∀ c ∈ w0, jsIsWs c = true) → T ≠ [] → (∀ c ∈ T, ¬ c = cSQ) →
      (∀ c ∈ w, jsIsWs c = true) → False := by
  intro x2 w0 T w y hdec hw0 hTne hTq hw
  have heq : (x2 ++ '(' :: w0) ++ cSQ :: (T ++ cSQ :: (w ++ ',' :: y)) =
      A ++ cSQ :: (E ++ cSQ :: B) := by
    rw [← hs0, hdec]
    simp [List.append_assoc]
  rcases quote_align A (x2 ++ '(' :: w0) (T ++ cSQ :: (w ++ ',' :: y))
      (E ++ cSQ :: B) hA heq with ⟨hxA, hR⟩ | ⟨m0, hxm, hm2⟩
  · rcases quote_align T E B (w ++ ',' :: y)
        (fun hc => (hTq cSQ hc) rfl) hR.symm with ⟨hET, hBW⟩ | ⟨m1, hEm, hmW⟩
    · exact (hTq cSQ (hET ▸ hE)) rfl
    · rcases hadj T m1 hEm with hTl | hm1h
      · exact (hTq cSQ (mem_of_getLast?_eq T cSQ hTl)) rfl
      · cases m1 with
        | nil => cases hm1h
        | cons c1 m12 =>
          have hc1 : c1 = cSQ := by simpa using hm1h
          cases w with
          | nil =>
            have hcomma : c1 = ',' := by
              simpa using ((List.cons.injEq _ _ _ _).mp (by simpa using hmW)).1
            rw [hc1] at hcomma
            exact absurd hcomma (by decide)
          | cons cw w2 =>
            have hccw : c1 = cw := by
              simpa using ((List.cons.injEq _ _ _ _).mp (by simpa using hmW)).1
            have hwcw := hw cw (List.mem_cons_self _ _)
            rw [← hccw, hc1] at hwcw
            exact absurd hwcw (by decide)
  · rcases locate_after m0 E (T ++ cSQ :: (w ++ ',' :: y)) B hB hm2 with
      ⟨v, hEv, hRv⟩ | ⟨hmE, hRB⟩
    · rcases hadj m0 v hEv with hml | hvh
      · have hm0ne : m0 ≠ [] := by
          intro hnil
          rw [hnil] at hml
          cases hml
        have hx1 : (x2 ++ '(' :: w0).getLast? = some cSQ := by
          rw [hxm, List.getLast?_append_cons]
          cases m0 with
          | nil => exact absurd rfl hm0ne
          | cons cm m02 =>
            rw [List.getLast?_cons_cons]
            exact hml
        have hx2 : (x2 ++ '(' :: w0).getLast? = ('(' :: w0).getLast? :=
          List.getLast?_append_cons x2 '(' w0
        have h5 : ('(' :: w0).getLast? = some cSQ := by
          rw [← hx2]
          exact hx1
        rcases List.mem_cons.mp (mem_of_getLast?_eq _ _ h5) with h6 | h6
        · exact absurd h6 (by decide)
        · exact absurd (hw0 cSQ h6) (by decide)
      · cases v with
        | nil => cases hvh
        | cons cv v2 =>
          have hcv : cv = cSQ := by simpa using hvh
          cases T with
          | nil => exact hTne rfl
          | cons cT T2 =>
            have hcT : cT = cv := by
              simpa using ((List.cons.injEq _ _ _ _).mp (by simpa using hRv)).1
            exact (hTq cT (List.mem_cons_self _ _)) (by rw [hcT, hcv])
    · apply hB
      rw [← hRB]
      exact List.mem_append_right T (List.mem_cons_self _ _)

theorem parseInsert_escaped_none (t : List Char) (hq : cSQ ∈ t) :
    parseInsert (str "INSERT INTO todos (title, completed) VALUES (" ++
      cSQ :: (escapeSQ t ++ cSQ :: str ", false)")) = none := by
  cases hrf : reFirst insertParseRE
      (str "INSERT INTO todos (title, completed) VALUES (" ++
        cSQ :: (escapeSQ t ++ cSQ :: str ", false)")) with
  | none => simp [parseInsert, hrf]
  | some m =>
    exfalso
    obtain ⟨n, suf, g, hm, _⟩ := reFirst_some _ _ _ hrf
    obtain ⟨x2, w0, T, w, y, hshape, hw0, hTne, hTq, hw⟩ := insertParse_shape _ _ hm
    refine no_match_shape
      (str "INSERT INTO todos (title, completed) VALUES (" ++
        cSQ :: (escapeSQ t ++ cSQ :: str ", false)"))
      (str "INSERT INTO todos (title, completed) VALUES (")
      (str ", false)") (escapeSQ t) (by decide) (by decide)
      (escapeSQ_mem_quote t hq) (escapeSQ_adj t) rfl
      ((str "INSERT INTO todos (title, completed) VALUES (" ++
        cSQ :: (escapeSQ t ++ cSQ :: str ", false)")).take n ++ x2) w0 T w y
      ?_ hw0 hTne hTq hw
    conv_lhs => rw [← List.take_append_drop n
      (str "INSERT INTO todos (title, completed) VALUES (" ++
        cSQ :: (escapeSQ t ++ cSQ :: str ", false)"))]
    rw [hshape]
    simp [List.append_assoc]

set_option maxRecDepth 40000 in
/-- C10: the Repairer's own quote escaping yields INSERT statements the INSERT
executor rejects.  For every title containing a single quote, the statement
built from its `escapeSQ`-escaped, single-quoted form — exactly what
`fixSQLSyntax` emits, as the middle conjunct pins down on the
"add a task to don't forget milk" fixture — fails `parseInsert` (the embedded
`'([^']+)'` pattern cannot absorb the doubled quote), so `handleInsertQuery`
raises the `Could not parse INSERT statement` fatal error without touching the
store. -/
theorem repairerEscapedInsertRejected :
    (∀ t : List Char, cSQ ∈ t →
      parseInsert (str "INSERT INTO todos (title, completed) VALUES (" ++
        cSQ :: (escapeSQ t ++ cSQ :: str ", false)")) = none) ∧
    fixSQLSyntax
      (str "INSERT INTO todos (title, completed) VALUES (don" ++
        cSQ :: str "t forget milk, false)")
      (str "add a task to don" ++ cSQ :: str "t forget milk") =
      str "INSERT INTO todos (title, completed) VALUES (" ++
        cSQ :: (escapeSQ (str "Don" ++ cSQ :: str "t forget milk") ++
          cSQ :: str ", false)") ∧
    (∀ (t newId : List Char) (now : Nat) (db : List Todo), cSQ ∈ t →
      handleInsertQuery (str "INSERT INTO todos (title, completed) VALUES (" ++
        cSQ :: (escapeSQ t ++ cSQ :: str ", false)")) newId now db =
        ⟨0, db, .error (str "Could not parse INSERT statement")⟩) := by
  refine ⟨fun t hq => parseInsert_escaped_none t hq, by rfl,
    fun t newId now db hq => ?_⟩
  have hp := parseInsert_escaped_none t hq
  simp [handleInsertQuery, hp]

/-- Witness for C10: the escaped `Don''t forget milk` statement is rejected by
the INSERT parser. -/
theorem repairerEscapedInsertRejected_witness :
    parseInsert (str "INSERT INTO todos (title, completed) VALUES (" ++
      cSQ :: (escapeSQ (str "Don" ++ cSQ :: str "t forget milk") ++
        cSQ :: str ", false)")) = none :=
  repairerEscapedInsertRejected.1 (str "Don" ++ cSQ :: str "t forget milk")
    (by decide)

end NlpToSql

